import Mathlib

/-!
Verification development for the cargo route optimizer
(`route_optimizer.py` of SC-Tools).

The Python source is shallowly embedded:

* `CargoMission` mirrors the class `CargoMission` (the mutable
  `current_dropoff_index` of the Python object is a field of the record;
  the unused `completed` boolean of `__init__` is omitted).
* Python floats are modelled by `ℚ`; Python's float infinity, which
  `get_distance` returns for unknown locations, is the `inf`
  constructor of `DistanceResult`.
* `RouteOptimizer.optimize_route` is embedded as `optimize_route`, a
  fuel-indexed step function.  All locations occurring in a route
  computation are validated against the location index before the loop
  starts (lines 162-180 of the source), after which every
  `self.get_distance` call inside the loop returns a plain matrix
  entry; the loop is therefore parametrised by a total distance
  function `dist : String → String → ℚ`.  The lookup itself, with its
  equal-name shortcut and infinity sentinel, is embedded separately as
  `RouteOptimizer.get_distance`.
* The human readable log strings `f"Pickup {id} - {type}"` and
  `f"Dropoff {id} at {loc} - {type}"` are modelled by the inductive
  `LogEntry`, which carries exactly the data interpolated into them.
* Python dicts keyed by cargo type are association lists
  (`List (String × ℚ)`); insertion order is preserved as dicts do.
-/


/-- One cargo mission, mirroring `CargoMission.__init__`'s attributes
(line 15-57 of the source).  `current_dropoff_index` is the mutable
progress cursor, initialised to 0 by the constructor. -/
structure CargoMission where
  mission_id : String
  pickup : String
  dropoffs : List String
  cargo_scu : ℚ
  cargo_type : String
  dropoff_cargo_types : List String
  dropoff_cargo_amounts : List ℚ
  payout : ℚ
  description : String
  current_dropoff_index : ℕ
deriving DecidableEq

/-- Python's two-argument `max` on rationals.  It agrees with Mathlib's
`max` (see `pymax_eq_max`) but is written so that the kernel can
evaluate it on concrete inputs. -/
def pymax (a b : ℚ) : ℚ := if a ≤ b then b else a

/-- The constructor `CargoMission.__init__` (lines 15-57): pads or
truncates the per-dropoff cargo types, and derives the per-dropoff
amounts (even split when absent, clamped-remainder fill when partially
supplied, truncation when over-supplied).  `none` stands for a Python
argument that is `None`.  Python raises `ZeroDivisionError` on an even
split over zero dropoffs; `ℚ` division by zero yields 0 instead, and no
claim is settled on that input. -/
def mkCargoMission (mission_id pickup : String) (dropoffs : List String)
    (cargo_scu : ℚ) (cargo_type : String)
    (dropoff_cargo_types : Option (List String))
    (dropoff_cargo_amounts : Option (List ℚ))
    (payout : ℚ) (description : String) : CargoMission :=
  let n := dropoffs.length
  let types :=
    match dropoff_cargo_types with
    | none => List.replicate n cargo_type
    | some ts =>
        if ts.length < n then ts ++ List.replicate (n - ts.length) cargo_type
        else ts.take n
  let amounts :=
    match dropoff_cargo_amounts with
    | none => List.replicate n (cargo_scu / (n : ℚ))
    | some given =>
        if given.length < n then
          let total_specified := given.sum
          let remaining := pymax 0 (cargo_scu - total_specified)
          let remaining_dropoffs := n - given.length
          let amount_per_remaining :=
            if 0 < remaining_dropoffs then remaining / (remaining_dropoffs : ℚ) else 0
          given ++ List.replicate remaining_dropoffs amount_per_remaining
        else given.take n
  ⟨mission_id, pickup, dropoffs, cargo_scu, cargo_type, types, amounts,
    payout, description, 0⟩

/-- `CargoMission.get_next_dropoff` (lines 59-63): the next dropoff
location, or `none` (Python `None`) when the cursor is past the end. -/
def CargoMission.get_next_dropoff (m : CargoMission) : Option String :=
  m.dropoffs[m.current_dropoff_index]?

/-- `CargoMission.get_current_cargo_type` (lines 65-69). -/
def CargoMission.get_current_cargo_type (m : CargoMission) : String :=
  match m.dropoff_cargo_types[m.current_dropoff_index]? with
  | some t => t
  | none => m.cargo_type

/-- `CargoMission.get_current_cargo_amount` (lines 71-76), including the
even-split fallback when the index is out of range. -/
def CargoMission.get_current_cargo_amount (m : CargoMission) : ℚ :=
  match m.dropoff_cargo_amounts[m.current_dropoff_index]? with
  | some a => a
  | none =>
      if 0 < m.dropoffs.length then m.cargo_scu / (m.dropoffs.length : ℚ) else 0

/-- `CargoMission.advance_dropoff` (lines 78-81): the advanced mission
together with the returned boolean (`True` iff dropoffs remain). -/
def CargoMission.advance_dropoff (m : CargoMission) : CargoMission × Bool :=
  let m' := { m with current_dropoff_index := m.current_dropoff_index + 1 }
  (m', decide (m'.current_dropoff_index < m.dropoffs.length))

/-- `CargoMission.is_complete` (lines 83-85). -/
def CargoMission.is_complete (m : CargoMission) : Bool :=
  decide (m.dropoffs.length ≤ m.current_dropoff_index)

/-- Result of the Python float-valued `get_distance`: a finite value, or
float infinity (returned for unknown locations and short matrix rows).
The `err` constructor models the `UnknownLocation` failure that the
specification's contract describes; the source function never produces
it — it catches lookup errors and returns the infinity sentinel. -/
inductive DistanceResult where
  | val (d : ℚ)
  | inf
  | err
deriving DecidableEq

/-- The location/distance data held by `RouteOptimizer`:
`location_indices` (name-to-row mapping, modelled as the list of names in
row order) and `distance_matrix`. -/
structure RouteOptimizer where
  ship_capacity : ℚ
  location_indices : List String
  distance_matrix : List (List ℚ)

/-- `RouteOptimizer.get_distance` (lines 123-139): 0 for equal names
(checked before any lookup), the matrix entry when both indices resolve
and the matrix is large enough, and the infinity sentinel otherwise
(the `IndexError` path of the `except` clause). -/
def RouteOptimizer.get_distance (o : RouteOptimizer) (a b : String) : DistanceResult :=
  if a = b then .val 0
  else
    match o.location_indices.findIdx? (fun x => decide (x = a)),
          o.location_indices.findIdx? (fun x => decide (x = b)) with
    | some i, some j =>
        match (o.distance_matrix.get? i).bind (fun row => row.get? j) with
        | some d => .val d
        | none => .inf
    | _, _ => .inf

/-- One entry of `mission_order`, carrying the data interpolated into
the source's log strings. -/
inductive LogEntry where
  | pickup (mission_id cargo_type : String)
  | dropoff (mission_id location cargo_type : String)
deriving DecidableEq

/-- The local variables of `optimize_route`'s driving loop
(lines 196-210). -/
structure RouteState where
  current_location : String
  current_cargo : ℚ
  route : List String
  mission_order : List LogEntry
  cargo_at_steps : List ℚ
  cargo_types_at_steps : List (List (String × ℚ))
  total_distance : ℚ
  total_payout : ℚ
  pending_missions : List CargoMission
  in_progress_missions : List CargoMission
  completed_missions : List CargoMission
deriving DecidableEq

/-- `cargo_types_at_steps[-1]`: the current cargo composition.  The list
starts as `[{}]` and is only appended to, so it is never empty. -/
def RouteState.lastTypes (st : RouteState) : List (String × ℚ) :=
  match st.cargo_types_at_steps.getLast? with
  | some c => c
  | none => []

/-- The remaining missions reported by the infeasibility result
(`pending_missions + in_progress_missions`, line 333). -/
def RouteState.remaining_missions (st : RouteState) : List CargoMission :=
  st.pending_missions ++ st.in_progress_missions

/-- Replace the first element satisfying `p` (an in-place mutation of a
list element in the source). -/
def replaceFirst (p : α → Bool) (a : α) : List α → List α
  | [] => []
  | x :: xs => if p x then a :: xs else x :: replaceFirst p a xs

/-- Remove the first element satisfying `p` (Python's `list.remove`). -/
def removeFirst (p : α → Bool) : List α → List α
  | [] => []
  | x :: xs => if p x then xs else x :: removeFirst p xs

/-- Dict update on pickup (lines 273-277 and 352-356): add the mission's
full cargo under its mission-level type, inserting at the end when the
key is new (dict insertion order). -/
def applyPickupToTypes (comp : List (String × ℚ)) (t : String) (q : ℚ) :
    List (String × ℚ) :=
  if comp.any (fun p => decide (p.1 = t)) then
    comp.map (fun p => if p.1 = t then (p.1, p.2 + q) else p)
  else comp ++ [(t, q)]

/-- Association-list lookup (first binding wins, like a dict read). -/
def lookupQty (comp : List (String × ℚ)) (t : String) : Option ℚ :=
  (comp.find? (fun p => decide (p.1 = t))).map (fun p => p.2)

/-- Dict update on dropoff (lines 246-250 and 379-383): when the type is
present, its quantity becomes `max 0 (old - q)`, and the entry is
deleted when that clamped value is 0; an absent type is left alone. -/
def applyDropoffToTypes (comp : List (String × ℚ)) (t : String) (q : ℚ) :
    List (String × ℚ) :=
  if comp.any (fun p => decide (p.1 = t)) then
    let comp' := comp.map (fun p => if p.1 = t then (p.1, pymax 0 (p.2 - q)) else p)
    if lookupQty comp' t = some 0 then comp'.filter (fun p => decide (¬ p.1 = t))
    else comp'
  else comp

/-- Local-phase dropoff (lines 239-263) and the dropoff half of the
travel phase share this bookkeeping; `loc` is the location logged for
the action.  The cursor advance and the completion transfer
(lines 257-262 / 390-394) follow. -/
def execDropoffCommon (st : RouteState) (m : CargoMission) (loc : String) : RouteState :=
  let ct := m.get_current_cargo_type
  let amt := m.get_current_cargo_amount
  let cargo' := st.current_cargo - amt
  let types' := applyDropoffToTypes st.lastTypes ct amt
  let m' := m.advance_dropoff.1
  if m.advance_dropoff.2 then
    { st with
      current_cargo := cargo',
      cargo_types_at_steps := st.cargo_types_at_steps ++ [types'],
      mission_order := st.mission_order ++ [LogEntry.dropoff m.mission_id loc ct],
      cargo_at_steps := st.cargo_at_steps ++ [cargo'],
      in_progress_missions :=
        replaceFirst (fun x => decide (x = m)) m' st.in_progress_missions }
  else
    { st with
      current_cargo := cargo',
      cargo_types_at_steps := st.cargo_types_at_steps ++ [types'],
      mission_order := st.mission_order ++ [LogEntry.dropoff m.mission_id loc ct],
      cargo_at_steps := st.cargo_at_steps ++ [cargo'],
      in_progress_missions := removeFirst (fun x => decide (x = m)) st.in_progress_missions,
      completed_missions := st.completed_missions ++ [m.advance_dropoff.1],
      total_payout := st.total_payout + m.payout }

/-- Local-phase dropoff at the current location (lines 239-263): no
route entry, no distance. -/
def execLocalDropoff (st : RouteState) (m : CargoMission) : RouteState :=
  execDropoffCommon st m st.current_location

/-- Pickup bookkeeping shared by the local phase (lines 266-283) and the
cargo/trace half of the travel-phase pickup (lines 349-360). -/
def execPickupCommon (st : RouteState) (m : CargoMission) : RouteState :=
  let cargo' := st.current_cargo + m.cargo_scu
  let types' := applyPickupToTypes st.lastTypes m.cargo_type m.cargo_scu
  { st with
    pending_missions := removeFirst (fun x => decide (x = m)) st.pending_missions,
    in_progress_missions := st.in_progress_missions ++ [m],
    current_cargo := cargo',
    cargo_types_at_steps := st.cargo_types_at_steps ++ [types'],
    mission_order := st.mission_order ++ [LogEntry.pickup m.mission_id m.cargo_type],
    cargo_at_steps := st.cargo_at_steps ++ [cargo'] }

/-- Local-phase pickup at the current location (lines 266-283). -/
def execLocalPickup (st : RouteState) (m : CargoMission) : RouteState :=
  execPickupCommon st m

/-- Travel-phase pickup (lines 338-360): travel distance is accumulated
and the pickup location is appended to the route. -/
def execTravelPickup (dist : String → String → ℚ) (st : RouteState)
    (m : CargoMission) : RouteState :=
  let st' := { st with
    total_distance := st.total_distance + dist st.current_location m.pickup,
    route := st.route ++ [m.pickup],
    current_location := m.pickup }
  execPickupCommon st' m

/-- Travel-phase dropoff (lines 362-394). -/
def execTravelDropoff (dist : String → String → ℚ) (st : RouteState)
    (m : CargoMission) (loc : String) : RouteState :=
  let st' := { st with
    total_distance := st.total_distance + dist st.current_location loc,
    route := st.route ++ [loc],
    current_location := loc }
  execDropoffCommon st' m loc

/-- `_calculate_option_score`'s `action_type` argument. -/
inductive OptionAction where
  | pickup
  | dropoff
deriving DecidableEq

/-- `RouteOptimizer._calculate_option_score` (lines 406-451).  Note that
both look-ahead bonuses scan `in_progress_missions` — the function is
never given the pending list. -/
def calculate_option_score (dist : String → String → ℚ)
    (current_location target_location : String) (action_type : OptionAction)
    (mission : CargoMission) (efficiency current_cargo max_cargo : ℚ)
    (in_progress_missions : List CargoMission) : ℚ :=
  let distance := dist current_location target_location
  let distance_score := if 0 < distance then -distance else 0
  let efficiency_score := efficiency * 10000
  let cargo_utilization := if 0 < max_cargo then current_cargo / max_cargo else 0
  match action_type with
  | .pickup =>
      let cargo_factor := 1 - cargo_utilization
      let dropoff_bonus : ℚ :=
        if in_progress_missions.any
            (fun m => decide (m.get_next_dropoff = some target_location)) then 5000 else 0
      let capacity_factor : ℚ :=
        if max_cargo < current_cargo + mission.cargo_scu then 0 else 1
      distance_score + efficiency_score + cargo_factor * 2000 + dropoff_bonus +
        capacity_factor * 3000
  | .dropoff =>
      let cargo_factor := cargo_utilization
      let cargo_amount := mission.get_current_cargo_amount
      let cargo_urgency := if 0 < max_cargo then cargo_amount / max_cargo else 0
      let pickup_bonus : ℚ :=
        if in_progress_missions.any
            (fun m => decide (m.pickup = target_location)) then 3000 else 0
      distance_score + efficiency_score + cargo_factor * 3000 +
        cargo_urgency * 4000 + pickup_bonus

/-- The per-mission efficiency constant of lines 214-225: the summed
pickup-to-dropoff distance, with 0 replaced by 1, then payout per
distance unit (0 when the adjusted sum is not positive). -/
def missionEfficiency (dist : String → String → ℚ) (m : CargoMission) : ℚ :=
  let pickup_to_dropoffs_distance := (m.dropoffs.map (fun d => dist m.pickup d)).sum
  let adjusted :=
    if pickup_to_dropoffs_distance = 0 then 1 else pickup_to_dropoffs_distance
  if 0 < adjusted then m.payout / adjusted else 0

/-- Dict write with overwrite, for the `mission_efficiency` dict. -/
def dictInsert (d : List (String × ℚ)) (k : String) (v : ℚ) : List (String × ℚ) :=
  if d.any (fun p => decide (p.1 = k)) then
    d.map (fun p => if p.1 = k then (k, v) else p)
  else d ++ [(k, v)]

/-- A candidate action of the travel phase: `best_option` is either
`("pickup", mission)` or `("dropoff", mission)`; for a dropoff the
target location (the mission's next dropoff at scoring time) is carried
along. -/
inductive Cand where
  | pickupC (m : CargoMission)
  | dropoffC (m : CargoMission) (loc : String)
deriving DecidableEq

/-- The running `(best_score, best_option)` pair: `none` is the initial
`-inf` score, which every finite score strictly beats (line 288-289,
`score > best_score`). -/
def updateBest (acc : Option (ℚ × Cand)) (s : ℚ) (c : Cand) : Option (ℚ × Cand) :=
  match acc with
  | none => some (s, c)
  | some (bs, _) => if bs < s then some (s, c) else acc

/-- One pending mission considered by the travel phase
(lines 292-307): skipped unless it fits in remaining capacity. -/
def pendingStep (dist : String → String → ℚ) (cap : ℚ) (eff : String → ℚ)
    (st : RouteState) (acc : Option (ℚ × Cand)) (m : CargoMission) :
    Option (ℚ × Cand) :=
  if st.current_cargo + m.cargo_scu ≤ cap then
    updateBest acc
      (calculate_option_score dist st.current_location m.pickup .pickup m
        (eff m.mission_id) st.current_cargo cap st.in_progress_missions)
      (.pickupC m)
  else acc

/-- One in-progress mission considered by the travel phase
(lines 309-325): skipped when it has no next dropoff. -/
def dropoffStep (dist : String → String → ℚ) (cap : ℚ) (eff : String → ℚ)
    (st : RouteState) (acc : Option (ℚ × Cand)) (m : CargoMission) :
    Option (ℚ × Cand) :=
  match m.get_next_dropoff with
  | some nd =>
      updateBest acc
        (calculate_option_score dist st.current_location nd .dropoff m
          (eff m.mission_id) st.current_cargo cap st.in_progress_missions)
        (.dropoffC m nd)
  | none => acc

/-- The travel-phase candidate scan (lines 288-325): every pending
mission that fits in remaining capacity, scored as a pickup, then every
in-progress mission with a next dropoff, scored as a dropoff. -/
def bestOption (dist : String → String → ℚ) (cap : ℚ) (eff : String → ℚ)
    (st : RouteState) : Option (ℚ × Cand) :=
  st.in_progress_missions.foldl (dropoffStep dist cap eff st)
    (st.pending_missions.foldl (pendingStep dist cap eff st) none)

/-- Outcome of one iteration of the `while` loop. -/
inductive StepResult where
  | done (st : RouteState)
  | infeasible (st : RouteState)
  | next (st : RouteState)
deriving DecidableEq

/-- One iteration of the driving loop (lines 228-394): exit when both
partitions are empty, otherwise the first local dropoff, otherwise the
first fitting local pickup, otherwise the best-scored travel action,
otherwise the infeasibility return of lines 328-334. -/
def stepRoute (dist : String → String → ℚ) (cap : ℚ) (eff : String → ℚ)
    (st : RouteState) : StepResult :=
  if st.pending_missions = [] ∧ st.in_progress_missions = [] then .done st
  else
    match st.in_progress_missions.find?
        (fun m => decide (m.get_next_dropoff = some st.current_location)) with
    | some m => .next (execLocalDropoff st m)
    | none =>
        match st.pending_missions.find?
            (fun m => decide (m.pickup = st.current_location ∧
              st.current_cargo + m.cargo_scu ≤ cap)) with
        | some m => .next (execLocalPickup st m)
        | none =>
            match bestOption dist cap eff st with
            | none => .infeasible st
            | some (_, .pickupC m) => .next (execTravelPickup dist st m)
            | some (_, .dropoffC m loc) => .next (execTravelDropoff dist st m loc)

/-- Result of a whole route computation.  `success` carries the final
loop state, from which the returned dictionary of lines 396-404 is
read off; `infeasible` carries the state at the failure return of
lines 328-334; `outOfFuel` only arises when the step budget of the
embedding is exhausted. -/
inductive RouteOutcome where
  | success (st : RouteState)
  | infeasible (st : RouteState)
  | outOfFuel (st : RouteState)
deriving DecidableEq

/-- The loop state carried by any outcome. -/
def RouteOutcome.state : RouteOutcome → RouteState
  | .success st => st
  | .infeasible st => st
  | .outOfFuel st => st

/-- Whether the computation returned the success dictionary. -/
def RouteOutcome.isSuccess : RouteOutcome → Bool
  | .success _ => true
  | _ => false

/-- The driving loop with an explicit step budget. -/
def runRoute (dist : String → String → ℚ) (cap : ℚ) (eff : String → ℚ) :
    ℕ → RouteState → RouteOutcome
  | 0, st => .outOfFuel st
  | fuel + 1, st =>
      match stepRoute dist cap eff st with
      | .done st' => .success st'
      | .infeasible st' => .infeasible st'
      | .next st' => runRoute dist cap eff fuel st'

/-- The loop's initial state (lines 196-210). -/
def initRouteState (start_location : String) (missions : List CargoMission) :
    RouteState :=
  { current_location := start_location
    current_cargo := 0
    route := [start_location]
    mission_order := []
    cargo_at_steps := [0]
    cargo_types_at_steps := [[]]
    total_distance := 0
    total_payout := 0
    pending_missions := missions
    in_progress_missions := []
    completed_missions := [] }

/-- `RouteOptimizer.optimize_route` after location validation: the
`mission_efficiency` dict is built once (lines 212-225), then the loop
runs from the initial state. -/
def effFun (dist : String → String → ℚ) (missions : List CargoMission) :
    String → ℚ :=
  let effDict := missions.foldl
    (fun d m => dictInsert d m.mission_id (missionEfficiency dist m)) []
  fun i =>
    match lookupQty effDict i with
    | some v => v
    | none => 0

def optimize_route (dist : String → String → ℚ) (ship_capacity : ℚ)
    (missions : List CargoMission) (start_location : String) (fuel : ℕ) :
    RouteOutcome :=
  runRoute dist ship_capacity (effFun dist missions) fuel
    (initRouteState start_location missions)

/-! ### Mission-level lemmas -/

/-- The cargo still aboard for one picked-up mission: its total minus
what its already-executed dropoffs removed. -/
def remQ (m : CargoMission) : ℚ :=
  m.cargo_scu - (m.dropoff_cargo_amounts.take m.current_dropoff_index).sum

/-- Amount lists as the constructor always produces them: one entry per
dropoff. -/
def LenMatch (m : CargoMission) : Prop :=
  m.dropoff_cargo_amounts.length = m.dropoffs.length

/-- Nonnegative per-dropoff amounts that sum to at most the mission
total. -/
def GoodAmounts (m : CargoMission) : Prop :=
  (∀ a ∈ m.dropoff_cargo_amounts, 0 ≤ a) ∧
    m.dropoff_cargo_amounts.sum ≤ m.cargo_scu ∧ LenMatch m

/-- Per-dropoff amounts that sum exactly to the mission total. -/
def ExactAmounts (m : CargoMission) : Prop :=
  m.dropoff_cargo_amounts.sum = m.cargo_scu ∧ LenMatch m

/-! ### Characterizing the branches of one loop iteration -/

/-- A candidate produced by `bestOption` is well formed: a pickup
candidate is a pending mission that fits, a dropoff candidate is an
in-progress mission targeted at its next dropoff. -/
def CandOK (cap : ℚ) (st : RouteState) : Cand → Prop
  | .pickupC m => m ∈ st.pending_missions ∧ st.current_cargo + m.cargo_scu ≤ cap
  | .dropoffC m loc => m ∈ st.in_progress_missions ∧ m.get_next_dropoff = some loc

/-! ### The core invariant: payout accounting, completion cursors, the
cargo trace head, and pickup-before-dropoff in the action log -/

/-- Bookkeeping facts that hold in every reachable loop state,
independently of any assumption on the missions. -/
structure InvCore (st : RouteState) : Prop where
  payoutSum : st.total_payout = (st.completed_missions.map (fun m => m.payout)).sum
  completedDone : ∀ m ∈ st.completed_missions,
    m.current_dropoff_index = m.dropoffs.length
  cargoLast : st.cargo_at_steps.getLast? = some st.current_cargo
  logPick : ∀ m ∈ st.in_progress_missions ++ st.completed_missions,
    ∃ ct, LogEntry.pickup m.mission_id ct ∈ st.mission_order
  logPrec : ∀ (j : ℕ) (i loc ct : String),
    st.mission_order[j]? = some (.dropoff i loc ct) →
    ∃ k, k < j ∧ ∃ ct2, st.mission_order[k]? = some (.pickup i ct2)

/-! ### Partition predicates and the cargo invariant -/

/-- Pending missions still carry the cursor value 0 that the
constructor gave them. -/
def PendingZero (st : RouteState) : Prop :=
  ∀ m ∈ st.pending_missions, m.current_dropoff_index = 0

/-- A mission property holding across all three partitions. -/
def AllParts (Q : CargoMission → Prop) (st : RouteState) : Prop :=
  (∀ m ∈ st.pending_missions, Q m) ∧ (∀ m ∈ st.in_progress_missions, Q m) ∧
    (∀ m ∈ st.completed_missions, Q m)

/-- The capacity invariant of a loop state: the running cargo is the
total still aboard for picked-up missions, it never exceeds capacity,
and every recorded trace entry lies within `[0, cap]`. -/
structure InvCargo (cap : ℚ) (st : RouteState) : Prop where
  cargoSum : st.current_cargo =
    ((st.in_progress_missions ++ st.completed_missions).map remQ).sum
  cargoUB : st.current_cargo ≤ cap
  traceBnds : ∀ x ∈ st.cargo_at_steps, 0 ≤ x ∧ x ≤ cap

/-- The cargo-sum equation alone (without bounds): used for the
conservation property, which needs no sign assumption on amounts. -/
def CargoSumInv (st : RouteState) : Prop :=
  st.current_cargo = ((st.in_progress_missions ++ st.completed_missions).map remQ).sum

/-! ### Concrete computations used by counterexamples and witnesses -/

/-- A mission whose partially supplied per-dropoff amounts exceed its
total: `cargo_scu = 10`, two dropoffs, supplied amounts `[100]`.  The
constructor keeps the oversized amount and fills the remainder with
`max 0 (10 - 100) = 0`. -/
def overfillMission : CargoMission :=
  mkCargoMission "M1" "A" ["B", "C"] 10 "General" none (some [100]) 0 ""

def overfillRun : RouteOutcome :=
  optimize_route (fun _ _ => 10) 168 [overfillMission] "A" 10

/-- A plain multi-dropoff mission with an even split: 90 SCU over two
dropoffs (Scenario D of the specification). -/
def splitMission : CargoMission :=
  mkCargoMission "M1" "A" ["B", "C"] 90 "General" none none 1000 ""

def splitRun : RouteOutcome :=
  optimize_route (fun _ _ => 5) 168 [splitMission] "A" 10

/-- A mission whose pickup and single dropoff are both the start
location: both actions are local, so the route never grows. -/
def colocMission : CargoMission :=
  mkCargoMission "M1" "A" ["A"] 10 "G" none none 500 ""

def colocRun : RouteOutcome :=
  optimize_route (fun _ _ => 7) 168 [colocMission] "A" 10

/-- Scenario B: a single mission with `cargo_scu = 200` against
`ship_capacity = 168`. -/
def scenarioBMission : CargoMission :=
  mkCargoMission "M1" "P" ["D"] 200 "General" none none 5000 ""

def scenarioBRun : RouteOutcome :=
  optimize_route (fun _ _ => 10) 168 [scenarioBMission] "P" 10

/-! ### C6 — dropoff score formula -/

/-- The dropoff score exactly as the claim words it: the 3000-point
co-location bonus fires when some PENDING mission's pickup equals the
target.  This definition follows the claim's text, for comparison with
the source's `calculate_option_score`, whose bonus scans the
in-progress list. -/
def claimedDropoffScore (dist : String → String → ℚ)
    (current_location target_location : String) (mission : CargoMission)
    (efficiency current_cargo max_cargo : ℚ)
    (pending_missions : List CargoMission) : ℚ :=
  (if 0 < dist current_location target_location
    then -(dist current_location target_location) else 0) +
  efficiency * 10000 + (current_cargo / max_cargo) * 3000 +
  (mission.get_current_cargo_amount / max_cargo) * 4000 +
  (if pending_missions.any (fun m => decide (m.pickup = target_location))
    then 3000 else 0)

/-- A mission carried aboard whose dropoff "T" is being scored. -/
def c6Carry : CargoMission := mkCargoMission "A1" "S" ["T"] 50 "G" none none 0 ""

/-- A pending mission whose pickup is exactly the scored target "T" but
which does not fit in remaining capacity. -/
def c6Heavy : CargoMission := mkCargoMission "P1" "T" ["U"] 200 "G" none none 0 ""

def c6Dist : String → String → ℚ := fun _ _ => 0

/-- The travel-phase state after the local pickup of `c6Carry`. -/
def c6State : RouteState :=
  execLocalPickup (initRouteState "S" [c6Carry, c6Heavy]) c6Carry

/-! ### C7 — per-mission efficiency constant -/

def c7Mission : CargoMission := mkCargoMission "M" "A" ["B"] 10 "G" none none 7 ""

def halfDist : String → String → ℚ := fun _ _ => 1 / 2

def tenDist : String → String → ℚ := fun _ _ => 10

/-! ### C8 — distance lookup contract -/

/-- C8 exactly as claimed: 0 for equal names, and an `UnknownLocation`
failure (the `err` value) whenever either name is absent from the
index. -/
def distanceLookupClaim : Prop :=
  ∀ (o : RouteOptimizer) (a b : String),
    (a = b → o.get_distance a b = .val 0) ∧
    ((a ∉ o.location_indices ∨ b ∉ o.location_indices) →
      o.get_distance a b = .err)

/-! ### Theorems -/

theorem pymax_eq_max (a b : ℚ) : pymax a b = max a b := (max_def a b).symm

/-! ### List helpers for the in-place mutations of the loop -/

theorem removeFirst_subset {p : α → Bool} {x : α} :
    ∀ {l : List α}, x ∈ removeFirst p l → x ∈ l := by
  intro l
  induction l with
  | nil => intro h; simp [removeFirst] at h
  | cons a t ih =>
      intro h
      by_cases hp : p a
      · simp only [removeFirst, hp, if_pos] at h
        exact List.mem_cons_of_mem a h
      · simp only [removeFirst, hp, if_neg, Bool.false_eq_true, not_false_iff,
          List.mem_cons] at h
        rcases h with h | h
        · simp [h]
        · exact List.mem_cons_of_mem a (ih h)

theorem replaceFirst_mem {p : α → Bool} {b : α} {x : α} :
    ∀ {l : List α}, x ∈ replaceFirst p b l → x ∈ l ∨ x = b := by
  intro l
  induction l with
  | nil => intro h; simp [replaceFirst] at h
  | cons a t ih =>
      intro h
      by_cases hp : p a
      · simp only [replaceFirst, hp, if_pos, List.mem_cons] at h
        rcases h with h | h
        · exact Or.inr h
        · exact Or.inl (List.mem_cons_of_mem a h)
      · simp only [replaceFirst, hp, if_neg, Bool.false_eq_true, not_false_iff,
          List.mem_cons] at h
        rcases h with h | h
        · exact Or.inl (by simp [h])
        · rcases ih h with h' | h'
          · exact Or.inl (List.mem_cons_of_mem a h')
          · exact Or.inr h'

theorem sum_map_removeFirst {p : α → Bool} {a : α} (f : α → ℚ) :
    ∀ {l : List α}, l.find? p = some a →
      (l.map f).sum = f a + ((removeFirst p l).map f).sum := by
  intro l
  induction l with
  | nil => intro h; simp [List.find?] at h
  | cons x t ih =>
      intro h
      by_cases hp : p x
      · rw [List.find?_cons_of_pos _ hp] at h
        cases h
        simp [removeFirst, hp]
      · rw [List.find?_cons_of_neg _ hp] at h
        simp only [removeFirst, hp, List.map_cons, List.sum_cons, if_neg,
          Bool.false_eq_true, not_false_iff, ih h]
        ring

theorem sum_map_replaceFirst {p : α → Bool} {a : α} (b : α) (f : α → ℚ) :
    ∀ {l : List α}, l.find? p = some a →
      ((replaceFirst p b l).map f).sum = (l.map f).sum - f a + f b := by
  intro l
  induction l with
  | nil => intro h; simp [List.find?] at h
  | cons x t ih =>
      intro h
      by_cases hp : p x
      · rw [List.find?_cons_of_pos _ hp] at h
        cases h
        simp only [replaceFirst, hp, if_pos, List.map_cons, List.sum_cons]
        ring
      · rw [List.find?_cons_of_neg _ hp] at h
        simp only [replaceFirst, hp, List.map_cons, List.sum_cons, if_neg,
          Bool.false_eq_true, not_false_iff, ih h]
        ring

theorem sum_take_succ_of_lt (l : List ℚ) (i : ℕ) (h : i < l.length) :
    (l.take (i + 1)).sum = (l.take i).sum + l[i] := by
  rw [List.take_succ, List.sum_append, List.getElem?_eq_getElem h]
  simp

theorem sum_take_le_sum (l : List ℚ) (i : ℕ) (hnn : ∀ a ∈ l, 0 ≤ a) :
    (l.take i).sum ≤ l.sum := by
  conv_rhs => rw [← List.take_append_drop i l]
  rw [List.sum_append]
  have : 0 ≤ (l.drop i).sum :=
    List.sum_nonneg (fun a ha => hnn a (List.mem_of_mem_drop ha))
  linarith

theorem getElem_add_sum_take_le (l : List ℚ) (i : ℕ) (h : i < l.length)
    (hnn : ∀ a ∈ l, 0 ≤ a) : (l.take i).sum + l[i] ≤ l.sum := by
  rw [← sum_take_succ_of_lt l i h]
  exact sum_take_le_sum l (i + 1) hnn

theorem get_next_dropoff_lt {m : CargoMission} {loc : String}
    (h : m.get_next_dropoff = some loc) :
    m.current_dropoff_index < m.dropoffs.length := by
  unfold CargoMission.get_next_dropoff at h
  exact (List.getElem?_eq_some.mp h).1

theorem advance_cursor (m : CargoMission) :
    (m.advance_dropoff).1.current_dropoff_index = m.current_dropoff_index + 1 := rfl

theorem amount_eq_getElem {m : CargoMission}
    (h : m.current_dropoff_index < m.dropoff_cargo_amounts.length) :
    m.get_current_cargo_amount = m.dropoff_cargo_amounts[m.current_dropoff_index] := by
  unfold CargoMission.get_current_cargo_amount
  rw [List.getElem?_eq_getElem h]

theorem remQ_advance {m : CargoMission} (hlen : LenMatch m)
    (hlt : m.current_dropoff_index < m.dropoffs.length) :
    remQ (m.advance_dropoff).1 = remQ m - m.get_current_cargo_amount := by
  have hlt' : m.current_dropoff_index < m.dropoff_cargo_amounts.length := by
    rw [hlen]; exact hlt
  unfold remQ CargoMission.advance_dropoff
  simp only
  rw [sum_take_succ_of_lt _ _ hlt', amount_eq_getElem hlt']
  ring

theorem remQ_nonneg {m : CargoMission} (hg : GoodAmounts m) : 0 ≤ remQ m := by
  rcases hg with ⟨hnn, hle, -⟩
  unfold remQ
  have := sum_take_le_sum m.dropoff_cargo_amounts m.current_dropoff_index hnn
  linarith

theorem amount_nonneg {m : CargoMission} (hg : GoodAmounts m)
    (hlt : m.current_dropoff_index < m.dropoffs.length) :
    0 ≤ m.get_current_cargo_amount := by
  rcases hg with ⟨hnn, -, hlen⟩
  have hlt' : m.current_dropoff_index < m.dropoff_cargo_amounts.length := by
    rw [hlen]; exact hlt
  rw [amount_eq_getElem hlt']
  exact hnn _ (List.getElem_mem hlt')

theorem remQ_sub_amount_nonneg {m : CargoMission} (hg : GoodAmounts m)
    (hlt : m.current_dropoff_index < m.dropoffs.length) :
    0 ≤ remQ m - m.get_current_cargo_amount := by
  rcases hg with ⟨hnn, hle, hlen⟩
  have hlt' : m.current_dropoff_index < m.dropoff_cargo_amounts.length := by
    rw [hlen]; exact hlt
  rw [amount_eq_getElem hlt']
  unfold remQ
  have := getElem_add_sum_take_le m.dropoff_cargo_amounts m.current_dropoff_index hlt' hnn
  linarith

theorem updateBest_ok {P : Cand → Prop} {acc : Option (ℚ × Cand)} {s : ℚ} {c : Cand}
    {sc : ℚ × Cand} (hacc : ∀ x, acc = some x → P x.2) (hc : P c)
    (h : updateBest acc s c = some sc) : P sc.2 := by
  cases acc with
  | none =>
      unfold updateBest at h
      cases h
      exact hc
  | some bsc =>
      obtain ⟨bs, bc⟩ := bsc
      unfold updateBest at h
      change (if bs < s then some (s, c) else some (bs, bc)) = some sc at h
      by_cases hlt : bs < s
      · rw [if_pos hlt] at h
        cases h
        exact hc
      · rw [if_neg hlt] at h
        exact hacc _ h

theorem pendingFold_ok (dist : String → String → ℚ) (cap : ℚ) (eff : String → ℚ)
    (st : RouteState) :
    ∀ (l : List CargoMission) (acc : Option (ℚ × Cand)),
      (∀ m ∈ l, m ∈ st.pending_missions) →
      (∀ x, acc = some x → CandOK cap st x.2) →
      ∀ x, l.foldl (pendingStep dist cap eff st) acc = some x → CandOK cap st x.2 := by
  intro l
  induction l with
  | nil => intro acc _ hacc x hx; exact hacc x hx
  | cons m t ih =>
      intro acc hl hacc x hx
      rw [List.foldl_cons] at hx
      refine ih _ (fun m' hm' => hl m' (List.mem_cons_of_mem m hm')) ?_ x hx
      intro y hy
      unfold pendingStep at hy
      split at hy
      · refine updateBest_ok hacc ?_ hy
        exact ⟨hl m (List.mem_cons_self m t), by assumption⟩
      · exact hacc y hy

theorem dropoffFold_ok (dist : String → String → ℚ) (cap : ℚ) (eff : String → ℚ)
    (st : RouteState) :
    ∀ (l : List CargoMission) (acc : Option (ℚ × Cand)),
      (∀ m ∈ l, m ∈ st.in_progress_missions) →
      (∀ x, acc = some x → CandOK cap st x.2) →
      ∀ x, l.foldl (dropoffStep dist cap eff st) acc = some x → CandOK cap st x.2 := by
  intro l
  induction l with
  | nil => intro acc _ hacc x hx; exact hacc x hx
  | cons m t ih =>
      intro acc hl hacc x hx
      rw [List.foldl_cons] at hx
      refine ih _ (fun m' hm' => hl m' (List.mem_cons_of_mem m hm')) ?_ x hx
      intro y hy
      unfold dropoffStep at hy
      split at hy
      · next nd hnd =>
          refine updateBest_ok hacc ?_ hy
          exact ⟨hl m (List.mem_cons_self m t), hnd⟩
      · exact hacc y hy

theorem bestOption_ok {dist : String → String → ℚ} {cap : ℚ} {eff : String → ℚ}
    {st : RouteState} {s : ℚ} {c : Cand}
    (h : bestOption dist cap eff st = some (s, c)) : CandOK cap st c := by
  unfold bestOption at h
  exact dropoffFold_ok dist cap eff st _ _ (fun _ hm => hm)
    (fun x hx => pendingFold_ok dist cap eff st _ _ (fun _ hm => hm)
      (fun y hy => by cases hy) x hx)
    (s, c) h

theorem pendingFold_none (dist : String → String → ℚ) (cap : ℚ) (eff : String → ℚ)
    (st : RouteState) :
    ∀ (l : List CargoMission),
      (∀ m ∈ l, ¬ st.current_cargo + m.cargo_scu ≤ cap) →
      l.foldl (pendingStep dist cap eff st) none = none := by
  intro l
  induction l with
  | nil => intro _; rfl
  | cons m t ih =>
      intro hl
      rw [List.foldl_cons]
      have : pendingStep dist cap eff st none m = none := by
        unfold pendingStep
        rw [if_neg (hl m (List.mem_cons_self m t))]
      rw [this]
      exact ih (fun m' hm' => hl m' (List.mem_cons_of_mem m hm'))

/-- What the loop body reduces to when it returns `done`. -/
theorem stepRoute_done_eq {dist : String → String → ℚ} {cap : ℚ} {eff : String → ℚ}
    {st st' : RouteState} (h : stepRoute dist cap eff st = .done st') :
    st' = st ∧ st.pending_missions = [] ∧ st.in_progress_missions = [] := by
  unfold stepRoute at h
  split at h
  · next hc => cases h; exact ⟨rfl, hc.1, hc.2⟩
  · split at h
    · cases h
    · split at h
      · cases h
      · split at h
        · cases h
        · cases h
        · cases h

/-- What the loop body reduces to when it returns `infeasible`. -/
theorem stepRoute_infeasible_eq {dist : String → String → ℚ} {cap : ℚ}
    {eff : String → ℚ} {st st' : RouteState}
    (h : stepRoute dist cap eff st = .infeasible st') : st' = st := by
  unfold stepRoute at h
  split at h
  · cases h
  · split at h
    · cases h
    · split at h
      · cases h
      · split at h
        · cases h; rfl
        · cases h
        · cases h

/-- The four ways one iteration can continue: a local dropoff, a local
pickup, a travel pickup, or a travel dropoff. -/
theorem stepRoute_next_cases {dist : String → String → ℚ} {cap : ℚ} {eff : String → ℚ}
    {st st' : RouteState} (h : stepRoute dist cap eff st = .next st') :
    (∃ m, st.in_progress_missions.find?
        (fun m => decide (m.get_next_dropoff = some st.current_location)) = some m ∧
      st' = execLocalDropoff st m) ∨
    (∃ m, st.pending_missions.find?
        (fun m => decide (m.pickup = st.current_location ∧
          st.current_cargo + m.cargo_scu ≤ cap)) = some m ∧
      st' = execLocalPickup st m) ∨
    (∃ s m, bestOption dist cap eff st = some (s, .pickupC m) ∧
      st' = execTravelPickup dist st m) ∨
    (∃ s m loc, bestOption dist cap eff st = some (s, .dropoffC m loc) ∧
      st' = execTravelDropoff dist st m loc) := by
  unfold stepRoute at h
  split at h
  · cases h
  · split at h
    · next m hm => cases h; exact Or.inl ⟨m, hm, rfl⟩
    · next hno =>
        split at h
        · next m hm => cases h; exact Or.inr (Or.inl ⟨m, hm, rfl⟩)
        · split at h
          · cases h
          · next s m hb => cases h; exact Or.inr (Or.inr (Or.inl ⟨s, m, hb, rfl⟩))
          · next s m loc hb =>
              cases h; exact Or.inr (Or.inr (Or.inr ⟨s, m, loc, hb, rfl⟩))

/-- Invariance transfer from one step to the whole run: whatever the
loop returns, its carried state is reachable from the initial state. -/
theorem runRoute_state_inv (dist : String → String → ℚ) (cap : ℚ) (eff : String → ℚ)
    (P : RouteState → Prop)
    (hstep : ∀ st st', stepRoute dist cap eff st = .next st' → P st → P st') :
    ∀ (fuel : ℕ) (st : RouteState), P st →
      P ((runRoute dist cap eff fuel st).state) := by
  intro fuel
  induction fuel with
  | zero => intro st hP; exact hP
  | succ n ih =>
      intro st hP
      unfold runRoute
      cases h : stepRoute dist cap eff st with
      | done st' =>
          have := (stepRoute_done_eq h).1
          simpa [RouteOutcome.state, this] using hP
      | infeasible st' =>
          have := stepRoute_infeasible_eq h
          simpa [RouteOutcome.state, this] using hP
      | next st' => exact ih st' (hstep st st' h hP)

/-- A successful run ends with both active partitions empty. -/
theorem runRoute_success_empty {dist : String → String → ℚ} {cap : ℚ}
    {eff : String → ℚ} :
    ∀ {fuel : ℕ} {st st' : RouteState},
      runRoute dist cap eff fuel st = .success st' →
      st'.pending_missions = [] ∧ st'.in_progress_missions = [] := by
  intro fuel
  induction fuel with
  | zero => intro st st' h; cases h
  | succ n ih =>
      intro st st' h
      unfold runRoute at h
      cases hs : stepRoute dist cap eff st with
      | done st'' =>
          rw [hs] at h
          cases h
          obtain ⟨he, h1, h2⟩ := stepRoute_done_eq hs
          rw [he]
          exact ⟨h1, h2⟩
      | infeasible st'' => rw [hs] at h; cases h
      | next st'' => rw [hs] at h; exact ih h

/-- A successful run's outcome carries the success state. -/
theorem runRoute_success_state {dist : String → String → ℚ} {cap : ℚ}
    {eff : String → ℚ} {fuel : ℕ} {st st' : RouteState}
    (h : runRoute dist cap eff fuel st = .success st') :
    (runRoute dist cap eff fuel st).state = st' := by
  rw [h]; rfl

theorem invCore_init (start : String) (missions : List CargoMission) :
    InvCore (initRouteState start missions) := by
  constructor
  · simp [initRouteState]
  · intro m hm; simp [initRouteState] at hm
  · simp [initRouteState]
  · intro m hm; simp [initRouteState] at hm
  · intro j i loc ct h; simp [initRouteState] at h

theorem log_extend_prec {log : List LogEntry} {e : LogEntry}
    (hprec : ∀ (j : ℕ) (i loc ct : String),
      log[j]? = some (.dropoff i loc ct) →
      ∃ k, k < j ∧ ∃ ct2, log[k]? = some (.pickup i ct2))
    (he : ∀ i loc ct, e = .dropoff i loc ct →
      ∃ ct2, LogEntry.pickup i ct2 ∈ log) :
    ∀ (j : ℕ) (i loc ct : String),
      (log ++ [e])[j]? = some (.dropoff i loc ct) →
      ∃ k, k < j ∧ ∃ ct2, (log ++ [e])[k]? = some (.pickup i ct2) := by
  intro j i loc ct hj
  by_cases hlt : j < log.length
  · rw [List.getElem?_append_left hlt] at hj
    obtain ⟨k, hk, ct2, hk2⟩ := hprec j i loc ct hj
    have hklt : k < log.length := lt_trans hk hlt
    exact ⟨k, hk, ct2, by rw [List.getElem?_append_left hklt]; exact hk2⟩
  · rw [List.getElem?_append_right (Nat.le_of_not_lt hlt)] at hj
    have hje : j - log.length = 0 := by
      by_contra hne
      rw [List.getElem?_eq_none] at hj
      · cases hj
      · simpa using Nat.one_le_iff_ne_zero.mpr hne
    rw [hje] at hj
    simp only [List.getElem?_cons_zero] at hj
    obtain ⟨ct2, hmem⟩ := he i loc ct (Option.some_injective _ hj)
    obtain ⟨k, hk⟩ := List.mem_iff_getElem?.mp hmem
    have hklt : k < log.length := (List.getElem?_eq_some.mp hk).1
    refine ⟨k, ?_, ct2, by rw [List.getElem?_append_left hklt]; exact hk⟩
    have : log.length ≤ j := Nat.le_of_not_lt hlt
    exact lt_of_lt_of_le hklt this

theorem log_extend_mem {log : List LogEntry} {e : LogEntry} {i ct : String}
    (h : LogEntry.pickup i ct ∈ log) : LogEntry.pickup i ct ∈ log ++ [e] :=
  List.mem_append_left _ h

/-- `InvCore` only looks at fields that travelling leaves unchanged. -/
theorem invCore_travel {st : RouteState} (hc : InvCore st) (d : ℚ) (r : List String)
    (l : String) :
    InvCore { st with total_distance := d, route := r, current_location := l } := by
  obtain ⟨h1, h2, h3, h4, h5⟩ := hc
  exact ⟨h1, h2, h3, h4, h5⟩

theorem invCore_execPickupCommon {st : RouteState} {m : CargoMission}
    (hc : InvCore st) : InvCore (execPickupCommon st m) := by
  obtain ⟨h1, h2, h3, h4, h5⟩ := hc
  constructor
  · simpa [execPickupCommon] using h1
  · intro m' hm'; simp only [execPickupCommon] at hm'; exact h2 m' hm'
  · simp [execPickupCommon]
  · intro m' hm'
    simp only [execPickupCommon] at hm' ⊢
    rcases List.mem_append.mp hm' with hm' | hm'
    · rcases List.mem_append.mp hm' with hm' | hm'
      · obtain ⟨ct, hct⟩ := h4 m' (List.mem_append_left _ hm')
        exact ⟨ct, log_extend_mem hct⟩
      · have : m' = m := List.mem_singleton.mp hm'
        subst this
        exact ⟨m'.cargo_type, List.mem_append_right _ (List.mem_singleton.mpr rfl)⟩
    · obtain ⟨ct, hct⟩ := h4 m' (List.mem_append_right _ hm')
      exact ⟨ct, log_extend_mem hct⟩
  · simp only [execPickupCommon]
    refine log_extend_prec h5 ?_
    intro i loc ct h
    cases h

theorem advance_dropoff_snd_eq (m : CargoMission) :
    (m.advance_dropoff.2 = true) ↔ m.current_dropoff_index + 1 < m.dropoffs.length := by
  simp [CargoMission.advance_dropoff]

theorem invCore_execDropoffCommon {st : RouteState} {m : CargoMission} {loc : String}
    (hc : InvCore st) (hm : m ∈ st.in_progress_missions)
    (hlt : m.current_dropoff_index < m.dropoffs.length) :
    InvCore (execDropoffCommon st m loc) := by
  obtain ⟨h1, h2, h3, h4, h5⟩ := hc
  unfold execDropoffCommon
  by_cases hadv : m.current_dropoff_index + 1 < m.dropoffs.length
  · rw [if_pos ((advance_dropoff_snd_eq m).mpr hadv)]
    constructor
    · simpa using h1
    · intro m' hm'; exact h2 m' hm'
    · simp
    · intro m' hm'
      simp only [List.mem_append] at hm'
      rcases hm' with hm' | hm'
      · rcases replaceFirst_mem hm' with hm' | hm'
        · obtain ⟨ct, hct⟩ := h4 m' (List.mem_append_left _ hm')
          exact ⟨ct, log_extend_mem hct⟩
        · subst hm'
          obtain ⟨ct, hct⟩ := h4 m (List.mem_append_left _ hm)
          exact ⟨ct, log_extend_mem hct⟩
      · obtain ⟨ct, hct⟩ := h4 m' (List.mem_append_right _ hm')
        exact ⟨ct, log_extend_mem hct⟩
    · refine log_extend_prec h5 ?_
      intro i loc2 ct h
      cases h
      exact h4 m (List.mem_append_left _ hm)
  · rw [if_neg (fun hb => hadv ((advance_dropoff_snd_eq m).mp hb))]
    have hdone : (m.advance_dropoff.1).current_dropoff_index =
        (m.advance_dropoff.1).dropoffs.length := by
      have hle : m.dropoffs.length ≤ m.current_dropoff_index + 1 := Nat.le_of_not_lt hadv
      have : m.current_dropoff_index + 1 = m.dropoffs.length :=
        Nat.le_antisymm (Nat.succ_le_of_lt hlt) hle
      simpa [CargoMission.advance_dropoff] using this
    constructor
    · simp only [List.map_append, List.sum_append, List.map_cons, List.map_nil,
        List.sum_cons, List.sum_nil]
      have : (m.advance_dropoff.1).payout = m.payout := rfl
      rw [this]
      simp [h1]
    · intro m' hm'
      simp only [List.mem_append] at hm'
      rcases hm' with hm' | hm'
      · exact h2 m' hm'
      · rw [List.mem_singleton.mp hm']
        exact hdone
    · simp
    · intro m' hm'
      simp only [List.mem_append] at hm'
      rcases hm' with hm' | hm' | hm'
      · obtain ⟨ct, hct⟩ := h4 m' (List.mem_append_left _ (removeFirst_subset hm'))
        exact ⟨ct, log_extend_mem hct⟩
      · obtain ⟨ct, hct⟩ := h4 m' (List.mem_append_right _ hm')
        exact ⟨ct, log_extend_mem hct⟩
      · rw [List.mem_singleton.mp hm']
        obtain ⟨ct, hct⟩ := h4 m (List.mem_append_left _ hm)
        exact ⟨ct, log_extend_mem hct⟩
    · refine log_extend_prec h5 ?_
      intro i loc2 ct h
      cases h
      exact h4 m (List.mem_append_left _ hm)

theorem good_advance {m : CargoMission} (hg : GoodAmounts m) :
    GoodAmounts m.advance_dropoff.1 := hg

theorem exact_advance {m : CargoMission} (hg : ExactAmounts m) :
    ExactAmounts m.advance_dropoff.1 := hg

theorem find?_eq_self {α} [DecidableEq α] {m : α} :
    ∀ {l : List α}, m ∈ l → l.find? (fun x => decide (x = m)) = some m := by
  intro l
  induction l with
  | nil => intro h; cases h
  | cons a t ih =>
      intro h
      by_cases ha : a = m
      · rw [List.find?_cons_of_pos _ (by simpa using ha)]
        rw [ha]
      · rw [List.find?_cons_of_neg _ (by simpa using ha)]
        exact ih (by rcases List.mem_cons.mp h with h | h
                     · exact absurd h.symm ha
                     · exact h)

theorem step_preserves_pendingZero {dist : String → String → ℚ} {cap : ℚ}
    {eff : String → ℚ} {st st' : RouteState}
    (h : stepRoute dist cap eff st = .next st') (hz : PendingZero st) :
    PendingZero st' := by
  rcases stepRoute_next_cases h with ⟨m, hfind, rfl⟩ | ⟨m, hfind, rfl⟩ |
    ⟨s, m, hb, rfl⟩ | ⟨s, m, loc, hb, rfl⟩
  · intro m' hm'
    unfold execLocalDropoff execDropoffCommon at hm'
    by_cases hadv : m.current_dropoff_index + 1 < m.dropoffs.length
    · rw [if_pos ((advance_dropoff_snd_eq m).mpr hadv)] at hm'
      exact hz m' hm'
    · rw [if_neg (fun hb' => hadv ((advance_dropoff_snd_eq m).mp hb'))] at hm'
      exact hz m' hm'
  · intro m' hm'
    simp only [execLocalPickup, execPickupCommon] at hm'
    exact hz m' (removeFirst_subset hm')
  · intro m' hm'
    simp only [execTravelPickup, execPickupCommon] at hm'
    exact hz m' (removeFirst_subset hm')
  · intro m' hm'
    unfold execTravelDropoff execDropoffCommon at hm'
    by_cases hadv : m.current_dropoff_index + 1 < m.dropoffs.length
    · rw [if_pos ((advance_dropoff_snd_eq m).mpr hadv)] at hm'
      exact hz m' hm'
    · rw [if_neg (fun hb' => hadv ((advance_dropoff_snd_eq m).mp hb'))] at hm'
      exact hz m' hm'

theorem step_preserves_allparts {Q : CargoMission → Prop}
    (hQ : ∀ m, Q m → Q m.advance_dropoff.1)
    {dist : String → String → ℚ} {cap : ℚ} {eff : String → ℚ} {st st' : RouteState}
    (h : stepRoute dist cap eff st = .next st') (hp : AllParts Q st) :
    AllParts Q st' := by
  obtain ⟨hp1, hp2, hp3⟩ := hp
  rcases stepRoute_next_cases h with ⟨m, hfind, rfl⟩ | ⟨m, hfind, rfl⟩ |
    ⟨s, m, hb, rfl⟩ | ⟨s, m, loc, hb, rfl⟩
  · have hm : m ∈ st.in_progress_missions := List.mem_of_find?_eq_some hfind
    unfold execLocalDropoff execDropoffCommon
    by_cases hadv : m.current_dropoff_index + 1 < m.dropoffs.length
    · rw [if_pos ((advance_dropoff_snd_eq m).mpr hadv)]
      refine ⟨hp1, ?_, hp3⟩
      intro m' hm'
      rcases replaceFirst_mem hm' with hm' | hm'
      · exact hp2 m' hm'
      · rw [hm']; exact hQ m (hp2 m hm)
    · rw [if_neg (fun hb' => hadv ((advance_dropoff_snd_eq m).mp hb'))]
      refine ⟨hp1, ?_, ?_⟩
      · intro m' hm'
        exact hp2 m' (removeFirst_subset hm')
      · intro m' hm'
        rcases List.mem_append.mp hm' with hm' | hm'
        · exact hp3 m' hm'
        · rw [List.mem_singleton.mp hm']; exact hQ m (hp2 m hm)
  · have hm : m ∈ st.pending_missions := List.mem_of_find?_eq_some hfind
    unfold execLocalPickup execPickupCommon
    refine ⟨?_, ?_, hp3⟩
    · intro m' hm'
      exact hp1 m' (removeFirst_subset hm')
    · intro m' hm'
      rcases List.mem_append.mp hm' with hm' | hm'
      · exact hp2 m' hm'
      · rw [List.mem_singleton.mp hm']; exact hp1 m hm
  · have hm : m ∈ st.pending_missions := (bestOption_ok hb).1
    unfold execTravelPickup execPickupCommon
    refine ⟨?_, ?_, hp3⟩
    · intro m' hm'
      exact hp1 m' (removeFirst_subset hm')
    · intro m' hm'
      rcases List.mem_append.mp hm' with hm' | hm'
      · exact hp2 m' hm'
      · rw [List.mem_singleton.mp hm']; exact hp1 m hm
  · have hm : m ∈ st.in_progress_missions := (bestOption_ok hb).1
    unfold execTravelDropoff execDropoffCommon
    by_cases hadv : m.current_dropoff_index + 1 < m.dropoffs.length
    · rw [if_pos ((advance_dropoff_snd_eq m).mpr hadv)]
      refine ⟨hp1, ?_, hp3⟩
      intro m' hm'
      rcases replaceFirst_mem hm' with hm' | hm'
      · exact hp2 m' hm'
      · rw [hm']; exact hQ m (hp2 m hm)
    · rw [if_neg (fun hb' => hadv ((advance_dropoff_snd_eq m).mp hb'))]
      refine ⟨hp1, ?_, ?_⟩
      · intro m' hm'
        exact hp2 m' (removeFirst_subset hm')
      · intro m' hm'
        rcases List.mem_append.mp hm' with hm' | hm'
        · exact hp3 m' hm'
        · rw [List.mem_singleton.mp hm']; exact hQ m (hp2 m hm)

theorem step_preserves_core {dist : String → String → ℚ} {cap : ℚ} {eff : String → ℚ}
    {st st' : RouteState} (h : stepRoute dist cap eff st = .next st')
    (hc : InvCore st) : InvCore st' := by
  rcases stepRoute_next_cases h with ⟨m, hfind, rfl⟩ | ⟨m, hfind, rfl⟩ |
    ⟨s, m, hb, rfl⟩ | ⟨s, m, loc, hb, rfl⟩
  · have hm : m ∈ st.in_progress_missions := List.mem_of_find?_eq_some hfind
    have hp := List.find?_some hfind
    have hnext : m.get_next_dropoff = some st.current_location := by simpa using hp
    exact invCore_execDropoffCommon hc hm (get_next_dropoff_lt hnext)
  · exact invCore_execPickupCommon hc
  · exact invCore_execPickupCommon (invCore_travel hc _ _ _)
  · obtain ⟨hm, hnext⟩ := bestOption_ok hb
    exact invCore_execDropoffCommon (invCore_travel hc _ _ _) hm
      (get_next_dropoff_lt hnext)

theorem invCargo_init (cap : ℚ) (start : String) (missions : List CargoMission)
    (hcap : 0 ≤ cap) : InvCargo cap (initRouteState start missions) := by
  constructor
  · simp [initRouteState]
  · simpa [initRouteState] using hcap
  · intro x hx
    simp only [initRouteState, List.mem_singleton] at hx
    rw [hx]
    exact ⟨le_refl 0, hcap⟩

theorem remQ_zero {m : CargoMission} (h : m.current_dropoff_index = 0) :
    remQ m = m.cargo_scu := by
  unfold remQ
  rw [h]
  simp

theorem sum_remQ_nonneg {l : List CargoMission} (hl : ∀ m ∈ l, GoodAmounts m) :
    0 ≤ (l.map remQ).sum := by
  refine List.sum_nonneg ?_
  intro x hx
  obtain ⟨m, hm, rfl⟩ := List.mem_map.mp hx
  exact remQ_nonneg (hl m hm)

theorem invCargo_travel {cap : ℚ} {st : RouteState} (hc : InvCargo cap st) (d : ℚ)
    (r : List String) (l : String) :
    InvCargo cap { st with total_distance := d, route := r, current_location := l } := by
  obtain ⟨h1, h2, h3⟩ := hc
  exact ⟨h1, h2, h3⟩

theorem invCargo_execPickupCommon {cap : ℚ} {st : RouteState} {m : CargoMission}
    (hm : m ∈ st.pending_missions) (hz0 : m.current_dropoff_index = 0)
    (hfit : st.current_cargo + m.cargo_scu ≤ cap)
    (hgm : GoodAmounts m)
    (hgi : ∀ x ∈ st.in_progress_missions, GoodAmounts x)
    (hgc : ∀ x ∈ st.completed_missions, GoodAmounts x)
    (hc : InvCargo cap st) : InvCargo cap (execPickupCommon st m) := by
  obtain ⟨h1, h2, h3⟩ := hc
  have hsum' : st.current_cargo + m.cargo_scu =
      (((st.in_progress_missions ++ [m]) ++ st.completed_missions).map remQ).sum := by
    simp only [List.map_append, List.sum_append, List.map_cons, List.map_nil,
      List.sum_cons, List.sum_nil]
    simp only [List.map_append, List.sum_append] at h1
    rw [remQ_zero hz0]
    linarith
  constructor
  · simpa [execPickupCommon] using hsum'
  · simpa [execPickupCommon] using hfit
  · intro x hx
    simp only [execPickupCommon, List.mem_append, List.mem_singleton] at hx
    rcases hx with hx | hx
    · exact h3 x hx
    · subst hx
      refine ⟨?_, hfit⟩
      rw [hsum']
      refine sum_remQ_nonneg ?_
      intro x hx
      rcases List.mem_append.mp hx with hx | hx
      · rcases List.mem_append.mp hx with hx | hx
        · exact hgi x hx
        · rw [List.mem_singleton.mp hx]; exact hgm
      · exact hgc x hx

theorem invCargo_execDropoffCommon {cap : ℚ} {st : RouteState} {m : CargoMission}
    {loc : String} (hm : m ∈ st.in_progress_missions)
    (hlt : m.current_dropoff_index < m.dropoffs.length)
    (hgm : GoodAmounts m)
    (hgi : ∀ x ∈ st.in_progress_missions, GoodAmounts x)
    (hgc : ∀ x ∈ st.completed_missions, GoodAmounts x)
    (hc : InvCargo cap st) : InvCargo cap (execDropoffCommon st m loc) := by
  obtain ⟨h1, h2, h3⟩ := hc
  have hamt : 0 ≤ m.get_current_cargo_amount := amount_nonneg hgm hlt
  have hradv : remQ m.advance_dropoff.1 = remQ m - m.get_current_cargo_amount :=
    remQ_advance hgm.2.2 hlt
  have hfind : st.in_progress_missions.find? (fun x => decide (x = m)) = some m :=
    find?_eq_self hm
  unfold execDropoffCommon
  by_cases hadv : m.current_dropoff_index + 1 < m.dropoffs.length
  · rw [if_pos ((advance_dropoff_snd_eq m).mpr hadv)]
    have hsum' : st.current_cargo - m.get_current_cargo_amount =
        (((replaceFirst (fun x => decide (x = m)) m.advance_dropoff.1
            st.in_progress_missions) ++ st.completed_missions).map remQ).sum := by
      simp only [List.map_append, List.sum_append]
      rw [sum_map_replaceFirst m.advance_dropoff.1 remQ hfind, hradv]
      simp only [List.map_append, List.sum_append] at h1
      linarith
    have hgood' : ∀ x ∈ (replaceFirst (fun x => decide (x = m)) m.advance_dropoff.1
        st.in_progress_missions) ++ st.completed_missions, GoodAmounts x := by
      intro x hx
      rcases List.mem_append.mp hx with hx | hx
      · rcases replaceFirst_mem hx with hx | hx
        · exact hgi x hx
        · rw [hx]; exact good_advance hgm
      · exact hgc x hx
    constructor
    · exact hsum'
    · simp only
      linarith
    · intro x hx
      simp only [List.mem_append, List.mem_singleton] at hx
      rcases hx with hx | hx
      · exact h3 x hx
      · subst hx
        refine ⟨?_, by linarith⟩
        rw [hsum']
        exact sum_remQ_nonneg hgood'
  · rw [if_neg (fun hb' => hadv ((advance_dropoff_snd_eq m).mp hb'))]
    have hsum' : st.current_cargo - m.get_current_cargo_amount =
        (((removeFirst (fun x => decide (x = m)) st.in_progress_missions) ++
            (st.completed_missions ++ [m.advance_dropoff.1])).map remQ).sum := by
      simp only [List.map_append, List.sum_append, List.map_cons, List.map_nil,
        List.sum_cons, List.sum_nil]
      have hrem := sum_map_removeFirst remQ hfind
      simp only [List.map_append, List.sum_append] at h1
      rw [hradv]
      linarith
    have hgood' : ∀ x ∈ (removeFirst (fun x => decide (x = m)) st.in_progress_missions) ++
        (st.completed_missions ++ [m.advance_dropoff.1]), GoodAmounts x := by
      intro x hx
      rcases List.mem_append.mp hx with hx | hx
      · exact hgi x (removeFirst_subset hx)
      · rcases List.mem_append.mp hx with hx | hx
        · exact hgc x hx
        · rw [List.mem_singleton.mp hx]; exact good_advance hgm
    constructor
    · exact hsum'
    · simp only
      linarith
    · intro x hx
      simp only [List.mem_append, List.mem_singleton] at hx
      rcases hx with hx | hx
      · exact h3 x hx
      · subst hx
        refine ⟨?_, by linarith⟩
        rw [hsum']
        exact sum_remQ_nonneg hgood'

theorem step_preserves_cargo {dist : String → String → ℚ} {cap : ℚ} {eff : String → ℚ}
    {st st' : RouteState} (h : stepRoute dist cap eff st = .next st')
    (hz : PendingZero st) (hg : AllParts GoodAmounts st) (hc : InvCargo cap st) :
    InvCargo cap st' := by
  obtain ⟨hg1, hg2, hg3⟩ := hg
  rcases stepRoute_next_cases h with ⟨m, hfind, rfl⟩ | ⟨m, hfind, rfl⟩ |
    ⟨s, m, hb, rfl⟩ | ⟨s, m, loc, hb, rfl⟩
  · have hm : m ∈ st.in_progress_missions := List.mem_of_find?_eq_some hfind
    have hp := List.find?_some hfind
    have hnext : m.get_next_dropoff = some st.current_location := by simpa using hp
    exact invCargo_execDropoffCommon hm (get_next_dropoff_lt hnext) (hg2 m hm) hg2 hg3 hc
  · have hm : m ∈ st.pending_missions := List.mem_of_find?_eq_some hfind
    have hp := List.find?_some hfind
    have hp2 : m.pickup = st.current_location ∧ st.current_cargo + m.cargo_scu ≤ cap := by
      simpa using hp
    exact invCargo_execPickupCommon hm (hz m hm) hp2.2 (hg1 m hm) hg2 hg3 hc
  · obtain ⟨hm, hfit⟩ := bestOption_ok hb
    exact invCargo_execPickupCommon hm (hz m hm) hfit (hg1 m hm) hg2 hg3
      (invCargo_travel hc _ _ _)
  · obtain ⟨hm, hnext⟩ := bestOption_ok hb
    exact invCargo_execDropoffCommon hm (get_next_dropoff_lt hnext) (hg2 m hm) hg2 hg3
      (invCargo_travel hc _ _ _)

theorem step_preserves_cargoSum {dist : String → String → ℚ} {cap : ℚ}
    {eff : String → ℚ} {st st' : RouteState}
    (h : stepRoute dist cap eff st = .next st') (hz : PendingZero st)
    (hlen : AllParts LenMatch st) (hs : CargoSumInv st) : CargoSumInv st' := by
  obtain ⟨hl1, hl2, hl3⟩ := hlen
  unfold CargoSumInv at hs
  rcases stepRoute_next_cases h with ⟨m, hfind, rfl⟩ | ⟨m, hfind, rfl⟩ |
    ⟨s, m, hb, rfl⟩ | ⟨s, m, loc, hb, rfl⟩
  · have hm : m ∈ st.in_progress_missions := List.mem_of_find?_eq_some hfind
    have hp := List.find?_some hfind
    have hnext : m.get_next_dropoff = some st.current_location := by simpa using hp
    have hlt := get_next_dropoff_lt hnext
    have hradv : remQ m.advance_dropoff.1 = remQ m - m.get_current_cargo_amount :=
      remQ_advance (hl2 m hm) hlt
    have hfind2 : st.in_progress_missions.find? (fun x => decide (x = m)) = some m :=
      find?_eq_self hm
    unfold execLocalDropoff execDropoffCommon CargoSumInv
    by_cases hadv : m.current_dropoff_index + 1 < m.dropoffs.length
    · rw [if_pos ((advance_dropoff_snd_eq m).mpr hadv)]
      simp only [List.map_append, List.sum_append]
      rw [sum_map_replaceFirst m.advance_dropoff.1 remQ hfind2, hradv]
      simp only [List.map_append, List.sum_append] at hs
      linarith
    · rw [if_neg (fun hb' => hadv ((advance_dropoff_snd_eq m).mp hb'))]
      simp only [List.map_append, List.sum_append, List.map_cons, List.map_nil,
        List.sum_cons, List.sum_nil]
      have hrem := sum_map_removeFirst remQ hfind2
      simp only [List.map_append, List.sum_append] at hs
      rw [hradv]
      linarith
  · have hm : m ∈ st.pending_missions := List.mem_of_find?_eq_some hfind
    unfold execLocalPickup execPickupCommon CargoSumInv
    simp only [List.map_append, List.sum_append, List.map_cons, List.map_nil,
      List.sum_cons, List.sum_nil]
    rw [remQ_zero (hz m hm)]
    simp only [List.map_append, List.sum_append] at hs
    linarith
  · have hm : m ∈ st.pending_missions := (bestOption_ok hb).1
    unfold execTravelPickup execPickupCommon CargoSumInv
    simp only [List.map_append, List.sum_append, List.map_cons, List.map_nil,
      List.sum_cons, List.sum_nil]
    rw [remQ_zero (hz m hm)]
    simp only [List.map_append, List.sum_append] at hs
    linarith
  · obtain ⟨hm, hnext⟩ := bestOption_ok hb
    have hlt := get_next_dropoff_lt hnext
    have hradv : remQ m.advance_dropoff.1 = remQ m - m.get_current_cargo_amount :=
      remQ_advance (hl2 m hm) hlt
    have hfind2 : st.in_progress_missions.find? (fun x => decide (x = m)) = some m :=
      find?_eq_self hm
    unfold execTravelDropoff execDropoffCommon CargoSumInv
    by_cases hadv : m.current_dropoff_index + 1 < m.dropoffs.length
    · rw [if_pos ((advance_dropoff_snd_eq m).mpr hadv)]
      simp only [List.map_append, List.sum_append]
      rw [sum_map_replaceFirst m.advance_dropoff.1 remQ hfind2, hradv]
      simp only [List.map_append, List.sum_append] at hs
      linarith
    · rw [if_neg (fun hb' => hadv ((advance_dropoff_snd_eq m).mp hb'))]
      simp only [List.map_append, List.sum_append, List.map_cons, List.map_nil,
        List.sum_cons, List.sum_nil]
      have hrem := sum_map_removeFirst remQ hfind2
      simp only [List.map_append, List.sum_append] at hs
      rw [hradv]
      linarith

/-! ### Run-level invariant wrappers -/

theorem optimize_route_core (dist : String → String → ℚ) (cap : ℚ)
    (missions : List CargoMission) (start : String) (fuel : ℕ) :
    InvCore ((optimize_route dist cap missions start fuel).state) :=
  runRoute_state_inv dist cap (effFun dist missions) InvCore
    (fun st st' h hc => step_preserves_core h hc)
    fuel _ (invCore_init start missions)

theorem optimize_route_cargo (dist : String → String → ℚ) (cap : ℚ)
    (missions : List CargoMission) (start : String) (fuel : ℕ)
    (hcap : 0 ≤ cap) (hz : ∀ m ∈ missions, m.current_dropoff_index = 0)
    (hg : ∀ m ∈ missions, GoodAmounts m) :
    InvCargo cap ((optimize_route dist cap missions start fuel).state) := by
  have h := runRoute_state_inv dist cap (effFun dist missions)
    (fun st => PendingZero st ∧ AllParts GoodAmounts st ∧ InvCargo cap st)
    (fun st st' h hc => ⟨step_preserves_pendingZero h hc.1,
      step_preserves_allparts (fun m hm => good_advance hm) h hc.2.1,
      step_preserves_cargo h hc.1 hc.2.1 hc.2.2⟩)
    fuel (initRouteState start missions)
    ⟨hz, ⟨hg, fun m hm => ((List.not_mem_nil m) hm).elim,
      fun m hm => ((List.not_mem_nil m) hm).elim⟩,
      invCargo_init cap start missions hcap⟩
  exact h.2.2

theorem optimize_route_cargoSum (dist : String → String → ℚ) (cap : ℚ)
    (missions : List CargoMission) (start : String) (fuel : ℕ)
    (hz : ∀ m ∈ missions, m.current_dropoff_index = 0)
    (hlen : ∀ m ∈ missions, LenMatch m) :
    CargoSumInv ((optimize_route dist cap missions start fuel).state) ∧
      AllParts LenMatch ((optimize_route dist cap missions start fuel).state) := by
  have h := runRoute_state_inv dist cap (effFun dist missions)
    (fun st => PendingZero st ∧ AllParts LenMatch st ∧ CargoSumInv st)
    (fun st st' h hc => ⟨step_preserves_pendingZero h hc.1,
      step_preserves_allparts (fun m hm => hm) h hc.2.1,
      step_preserves_cargoSum h hc.1 hc.2.1 hc.2.2⟩)
    fuel (initRouteState start missions)
    ⟨hz, ⟨hlen, fun m hm => ((List.not_mem_nil m) hm).elim,
      fun m hm => ((List.not_mem_nil m) hm).elim⟩, by
      unfold CargoSumInv initRouteState
      simp⟩
  exact ⟨h.2.2, h.2.1⟩

/-! ### Further supporting lemmas for the claims -/

theorem optimize_route_allparts (Q : CargoMission → Prop)
    (hQ : ∀ m, Q m → Q m.advance_dropoff.1) (dist : String → String → ℚ) (cap : ℚ)
    (missions : List CargoMission) (start : String) (fuel : ℕ)
    (hmiss : ∀ m ∈ missions, Q m) :
    AllParts Q ((optimize_route dist cap missions start fuel).state) :=
  runRoute_state_inv dist cap (effFun dist missions) (AllParts Q)
    (fun _ _ h hp => step_preserves_allparts hQ h hp) fuel _
    ⟨hmiss, fun m hm => ((List.not_mem_nil m) hm).elim,
      fun m hm => ((List.not_mem_nil m) hm).elim⟩

theorem optimize_route_success_empty {dist : String → String → ℚ} {cap : ℚ}
    {missions : List CargoMission} {start : String} {fuel : ℕ} {st : RouteState}
    (h : optimize_route dist cap missions start fuel = .success st) :
    st.pending_missions = [] ∧ st.in_progress_missions = [] :=
  runRoute_success_empty h

theorem optimize_route_state_of_success {dist : String → String → ℚ} {cap : ℚ}
    {missions : List CargoMission} {start : String} {fuel : ℕ} {st : RouteState}
    (h : optimize_route dist cap missions start fuel = .success st) :
    (optimize_route dist cap missions start fuel).state = st := by
  rw [h]; rfl

theorem remQ_completed_zero {m : CargoMission}
    (hend : m.current_dropoff_index = m.dropoffs.length) (hex : ExactAmounts m) :
    remQ m = 0 := by
  obtain ⟨hsum, hlen⟩ := hex
  unfold remQ
  rw [hend, ← hlen, List.take_length, hsum]
  ring

/-- The loop body on a state whose travel phase has no feasible
candidate: no in-progress mission, a nonempty pending partition, and no
pending mission that fits. -/
theorem stepRoute_infeasible_of (dist : String → String → ℚ) (cap : ℚ)
    (eff : String → ℚ) (st : RouteState) (hip : st.in_progress_missions = [])
    (hne : st.pending_missions ≠ [])
    (hnofit : ∀ m ∈ st.pending_missions, ¬ st.current_cargo + m.cargo_scu ≤ cap) :
    stepRoute dist cap eff st = .infeasible st := by
  unfold stepRoute
  rw [if_neg (fun hc => hne hc.1)]
  rw [hip]
  simp only [List.find?_nil]
  have hfp : st.pending_missions.find?
      (fun m => decide (m.pickup = st.current_location ∧
        st.current_cargo + m.cargo_scu ≤ cap)) = none := by
    rw [List.find?_eq_none]
    intro m hm
    simp only [decide_eq_true_eq, not_and]
    intro _
    exact hnofit m hm
  rw [hfp]
  have hbo : bestOption dist cap eff st = none := by
    unfold bestOption
    rw [hip]
    simp only [List.foldl_nil]
    exact pendingFold_none dist cap eff st st.pending_missions hnofit
  rw [hbo]

theorem findIdx?_eq_none_of_not_mem (l : List String) (x : String) (h : x ∉ l) :
    l.findIdx? (fun y => decide (y = x)) = none := by
  induction l with
  | nil => rfl
  | cons a t ih =>
      have hax : ¬ (a = x) := fun hax => h (by rw [hax]; exact List.mem_cons_self x t)
      have ht := ih (fun hmem => h (List.mem_cons_of_mem a hmem))
      rw [List.findIdx?_cons]
      simp [hax, ht]

theorem lookupQty_map_update (comp : List (String × ℚ)) (t : String) (q : ℚ) :
    lookupQty (comp.map (fun p => if p.1 = t then (p.1, pymax 0 (p.2 - q)) else p)) t =
      (lookupQty comp t).map (fun v => pymax 0 (v - q)) := by
  induction comp with
  | nil => rfl
  | cons p tail ih =>
      by_cases hp : p.1 = t
      · unfold lookupQty
        rw [List.map_cons, if_pos hp]
        rw [List.find?_cons_of_pos _ (by simpa using hp),
          List.find?_cons_of_pos _ (by simpa using hp)]
        rfl
      · unfold lookupQty
        rw [List.map_cons, if_neg hp]
        rw [List.find?_cons_of_neg _ (by simpa using hp),
          List.find?_cons_of_neg _ (by simpa using hp)]
        exact ih

theorem lookupQty_filter_ne (comp : List (String × ℚ)) (t : String) :
    lookupQty (comp.filter (fun p => decide (¬ p.1 = t))) t = none := by
  induction comp with
  | nil => rfl
  | cons p tail ih =>
      by_cases hp : p.1 = t
      · rw [List.filter_cons_of_neg (by simpa using hp)]
        exact ih
      · rw [List.filter_cons_of_pos (by simpa using hp)]
        unfold lookupQty
        rw [List.find?_cons_of_neg _ (by simpa using hp)]
        exact ih

theorem any_key_of_lookup {comp : List (String × ℚ)} {t : String} {v : ℚ}
    (hv : lookupQty comp t = some v) :
    comp.any (fun p => decide (p.1 = t)) = true := by
  unfold lookupQty at hv
  cases hf : comp.find? (fun p => decide (p.1 = t)) with
  | none => rw [hf] at hv; cases hv
  | some p =>
      rw [List.any_eq_true]
      have hp := List.find?_some hf
      exact ⟨p, List.mem_of_find?_eq_some hf, hp⟩

theorem lookup_applyDropoffToTypes {comp : List (String × ℚ)} {t : String} {q v : ℚ}
    (hv : lookupQty comp t = some v) :
    lookupQty (applyDropoffToTypes comp t q) t =
      if q < v then some (v - q) else none := by
  unfold applyDropoffToTypes
  rw [if_pos (any_key_of_lookup hv)]
  have hmap0 := lookupQty_map_update comp t q
  rw [hv] at hmap0
  have hmap : lookupQty (comp.map
      (fun p => if p.1 = t then (p.1, pymax 0 (p.2 - q)) else p)) t =
      some (pymax 0 (v - q)) := hmap0
  by_cases hlt : q < v
  · rw [if_pos hlt]
    have hpos : pymax 0 (v - q) = v - q := by
      unfold pymax
      rw [if_pos (by linarith)]
    have hne : ¬ (lookupQty (comp.map
        (fun p => if p.1 = t then (p.1, pymax 0 (p.2 - q)) else p)) t = some 0) := by
      rw [hmap, hpos]
      intro hcon
      have : v - q = 0 := Option.some_injective _ hcon
      linarith
    rw [if_neg hne, hmap, hpos]
  · rw [if_neg hlt]
    have hle : v ≤ q := not_lt.mp hlt
    have hzero : pymax 0 (v - q) = 0 := by
      unfold pymax
      by_cases h0 : (0:ℚ) ≤ v - q
      · rw [if_pos h0]
        linarith
      · rw [if_neg h0]
    rw [if_pos (by rw [hmap, hzero])]
    exact lookupQty_filter_ne _ t

theorem pymax_zero_nonneg (z : ℚ) : 0 ≤ pymax 0 z := by
  unfold pymax
  by_cases h : (0:ℚ) ≤ z
  · rw [if_pos h]; exact h
  · rw [if_neg h]

theorem applyDropoffToTypes_nonneg {comp : List (String × ℚ)} {t : String} {q : ℚ}
    (hnn : ∀ y ∈ comp, 0 ≤ y.2) :
    ∀ x ∈ applyDropoffToTypes comp t q, 0 ≤ x.2 := by
  intro x hx
  unfold applyDropoffToTypes at hx
  by_cases hany : comp.any (fun p => decide (p.1 = t)) = true
  · rw [if_pos hany] at hx
    change x ∈ (if lookupQty (comp.map
        (fun p => if p.1 = t then (p.1, pymax 0 (p.2 - q)) else p)) t = some 0
      then (comp.map (fun p => if p.1 = t then (p.1, pymax 0 (p.2 - q)) else p)).filter
        (fun p => decide (¬ p.1 = t))
      else comp.map (fun p => if p.1 = t then (p.1, pymax 0 (p.2 - q)) else p)) at hx
    have hmem : x ∈ comp.map (fun p => if p.1 = t then (p.1, pymax 0 (p.2 - q)) else p) := by
      by_cases h0 : lookupQty (comp.map
          (fun p => if p.1 = t then (p.1, pymax 0 (p.2 - q)) else p)) t = some 0
      · rw [if_pos h0] at hx
        exact List.mem_of_mem_filter hx
      · rw [if_neg h0] at hx
        exact hx
    obtain ⟨y, hy, hyx⟩ := List.mem_map.mp hmem
    by_cases hyt : y.1 = t
    · rw [if_pos hyt] at hyx
      rw [← hyx]
      exact pymax_zero_nonneg (y.2 - q)
    · rw [if_neg hyt] at hyx
      rw [← hyx]
      exact hnn y hy
  · rw [if_neg hany] at hx
    exact hnn x hx

/-- Payout changes only at a completing dropoff: one loop step either
leaves the completed list and the running payout alone, or appends one
newly completed mission, credits exactly its payout, and logs that
mission's final dropoff. -/
theorem step_payout_timing {dist : String → String → ℚ} {cap : ℚ} {eff : String → ℚ}
    {s1 s2 : RouteState} (h : stepRoute dist cap eff s1 = .next s2) :
    (s2.completed_missions = s1.completed_missions ∧
      s2.total_payout = s1.total_payout) ∨
    (∃ m loc ct, s2.completed_missions = s1.completed_missions ++ [m] ∧
      s2.total_payout = s1.total_payout + m.payout ∧
      m.current_dropoff_index = m.dropoffs.length ∧
      s2.mission_order = s1.mission_order ++ [LogEntry.dropoff m.mission_id loc ct]) := by
  rcases stepRoute_next_cases h with ⟨m, hfind, rfl⟩ | ⟨m, hfind, rfl⟩ |
    ⟨s, m, hb, rfl⟩ | ⟨s, m, loc, hb, rfl⟩
  · have hp := List.find?_some hfind
    have hnext : m.get_next_dropoff = some s1.current_location := by simpa using hp
    have hlt := get_next_dropoff_lt hnext
    unfold execLocalDropoff execDropoffCommon
    by_cases hadv : m.current_dropoff_index + 1 < m.dropoffs.length
    · rw [if_pos ((advance_dropoff_snd_eq m).mpr hadv)]
      exact Or.inl ⟨rfl, rfl⟩
    · rw [if_neg (fun hb' => hadv ((advance_dropoff_snd_eq m).mp hb'))]
      refine Or.inr ⟨m.advance_dropoff.1, s1.current_location,
        m.get_current_cargo_type, rfl, rfl, ?_, rfl⟩
      have : m.current_dropoff_index + 1 = m.dropoffs.length :=
        Nat.le_antisymm (Nat.succ_le_of_lt hlt) (Nat.le_of_not_lt hadv)
      simpa [CargoMission.advance_dropoff] using this
  · exact Or.inl ⟨rfl, rfl⟩
  · exact Or.inl ⟨rfl, rfl⟩
  · obtain ⟨hm, hnext⟩ := bestOption_ok hb
    have hlt := get_next_dropoff_lt hnext
    unfold execTravelDropoff execDropoffCommon
    by_cases hadv : m.current_dropoff_index + 1 < m.dropoffs.length
    · rw [if_pos ((advance_dropoff_snd_eq m).mpr hadv)]
      exact Or.inl ⟨rfl, rfl⟩
    · rw [if_neg (fun hb' => hadv ((advance_dropoff_snd_eq m).mp hb'))]
      refine Or.inr ⟨m.advance_dropoff.1, loc, m.get_current_cargo_type, rfl, rfl, ?_, rfl⟩
      have : m.current_dropoff_index + 1 = m.dropoffs.length :=
        Nat.le_antisymm (Nat.succ_le_of_lt hlt) (Nat.le_of_not_lt hadv)
      simpa [CargoMission.advance_dropoff] using this

/-! ### C1 — capacity invariant -/

/-- C1 (counterexample): the claim "every entry of `cargo_at_each_step`
satisfies `0 ≤ entry ≤ ship_capacity`" fails as stated.  With
`overfillMission` (supplied per-dropoff amount 100 against a 10-SCU
total) the computation returns a success result whose cargo trace is
`[0, 10, -90, -90]` — a negative entry. -/
theorem capacity_invariant_counterexample :
    overfillRun.isSuccess = true ∧
      ¬ (∀ x ∈ overfillRun.state.cargo_at_steps, 0 ≤ x ∧ x ≤ 168) := by
  constructor
  · with_unfolding_all rfl
  · with_unfolding_all decide

/-- C1 (amended): the capacity invariant holds for every returned state
provided the capacity is nonnegative and every mission's per-dropoff
amounts are nonnegative, sum to at most its `cargo_scu`, and are
positionally matched with its dropoffs — all true of constructor-built
missions whose supplied amounts do not exceed the total.  The statement
covers the state carried by any outcome, in particular every success
and infeasibility result. -/
theorem capacity_invariant_amended (dist : String → String → ℚ) (cap : ℚ)
    (missions : List CargoMission) (start : String) (fuel : ℕ)
    (hcap : 0 ≤ cap) (hz : ∀ m ∈ missions, m.current_dropoff_index = 0)
    (hg : ∀ m ∈ missions, GoodAmounts m) :
    ∀ x ∈ (optimize_route dist cap missions start fuel).state.cargo_at_steps,
      0 ≤ x ∧ x ≤ cap :=
  (optimize_route_cargo dist cap missions start fuel hcap hz hg).traceBnds

/-- C1 (witness): the amended theorem applied to the even-split run. -/
theorem capacity_invariant_witness :
    (0:ℚ) ≤ 168 ∧ (∀ m ∈ [splitMission], m.current_dropoff_index = 0) ∧
      (∀ m ∈ [splitMission], GoodAmounts m) ∧
      ∀ x ∈ splitRun.state.cargo_at_steps, 0 ≤ x ∧ x ≤ 168 := by
  have hz : ∀ m ∈ [splitMission], m.current_dropoff_index = 0 := by
    intro m hm
    rw [List.mem_singleton.mp hm]
    rfl
  have hg : ∀ m ∈ [splitMission], GoodAmounts m := by
    intro m hm
    rw [List.mem_singleton.mp hm]
    refine ⟨?_, ?_, ?_⟩
    · with_unfolding_all decide
    · with_unfolding_all decide
    · show splitMission.dropoff_cargo_amounts.length = splitMission.dropoffs.length
      with_unfolding_all decide
  exact ⟨by norm_num, hz, hg,
    capacity_invariant_amended _ 168 [splitMission] "A" 10 (by norm_num) hz hg⟩

/-! ### C2 — payout accounting -/

/-- C2: for every successful computation, `total_payout` is exactly the
sum of `payout` over the missions in the completed list, a mission is
completed exactly when its cursor reached its dropoff-sequence length
(at success the other two partitions are empty), and — for any single
loop step — the running payout changes only when a mission's final
dropoff executes, at which point exactly that mission's payout is
credited and its last dropoff is logged. -/
theorem payout_accounting (dist : String → String → ℚ) (cap : ℚ)
    (missions : List CargoMission) (start : String) (fuel : ℕ) (st : RouteState)
    (h : optimize_route dist cap missions start fuel = .success st) :
    st.total_payout = (st.completed_missions.map (fun m => m.payout)).sum ∧
    (∀ m ∈ st.completed_missions, m.current_dropoff_index = m.dropoffs.length) ∧
    (∀ m ∈ st.pending_missions ++ st.in_progress_missions ++ st.completed_missions,
      (m ∈ st.completed_missions ↔ m.current_dropoff_index = m.dropoffs.length)) ∧
    (∀ (dist2 : String → String → ℚ) (cap2 : ℚ) (eff2 : String → ℚ)
        (s1 s2 : RouteState), stepRoute dist2 cap2 eff2 s1 = .next s2 →
      (s2.completed_missions = s1.completed_missions ∧
        s2.total_payout = s1.total_payout) ∨
      (∃ m loc ct, s2.completed_missions = s1.completed_missions ++ [m] ∧
        s2.total_payout = s1.total_payout + m.payout ∧
        m.current_dropoff_index = m.dropoffs.length ∧
        s2.mission_order = s1.mission_order ++
          [LogEntry.dropoff m.mission_id loc ct])) := by
  have hcore := optimize_route_core dist cap missions start fuel
  rw [optimize_route_state_of_success h] at hcore
  obtain ⟨hpend, hip⟩ := optimize_route_success_empty h
  refine ⟨hcore.payoutSum, hcore.completedDone, ?_, ?_⟩
  · intro m hm
    have hmc : m ∈ st.completed_missions := by
      rcases List.mem_append.mp hm with h1 | h1
      · rcases List.mem_append.mp h1 with h2 | h2
        · rw [hpend] at h2; cases h2
        · rw [hip] at h2; cases h2
      · exact h1
    exact ⟨fun _ => hcore.completedDone m hmc, fun _ => hmc⟩
  · intro dist2 cap2 eff2 s1 s2 hstep
    exact step_payout_timing hstep

set_option maxRecDepth 2000 in
/-- C2 (witness): the accounting applied to the even-split run, whose
payout is 1000 for the single completed mission. -/
theorem payout_accounting_witness :
    splitRun.state.total_payout =
      (splitRun.state.completed_missions.map (fun m => m.payout)).sum := by
  have h : optimize_route (fun _ _ => (5:ℚ)) 168 [splitMission] "A" 10 =
      .success splitRun.state := by
    with_unfolding_all rfl
  exact (payout_accounting _ _ _ _ _ _ h).1

/-! ### C3 — conservation -/

/-- C3 (counterexample): the claim that the final `cargo_at_each_step`
entry of a successful computation is exactly 0 — explicitly including
missions whose partially supplied amounts were completed with a clamped
remainder — fails: the `overfillMission` computation succeeds with a
final trace entry of -90. -/
theorem conservation_counterexample :
    overfillRun.isSuccess = true ∧
      ¬ overfillRun.state.cargo_at_steps.getLast? = some 0 := by
  constructor
  · with_unfolding_all rfl
  · with_unfolding_all decide

/-- C3 (amended): the final `cargo_at_each_step` entry of a successful
computation is exactly 0 provided every mission's per-dropoff amounts
sum exactly to its `cargo_scu` (true for auto-derived even splits and
for partially supplied amounts whose specified part does not exceed the
total; false in the clamped-overflow case, as the counterexample
shows). -/
theorem conservation_amended (dist : String → String → ℚ) (cap : ℚ)
    (missions : List CargoMission) (start : String) (fuel : ℕ) (st : RouteState)
    (hz : ∀ m ∈ missions, m.current_dropoff_index = 0)
    (hex : ∀ m ∈ missions, ExactAmounts m)
    (h : optimize_route dist cap missions start fuel = .success st) :
    st.cargo_at_steps.getLast? = some 0 := by
  have hcore := optimize_route_core dist cap missions start fuel
  have hsum := optimize_route_cargoSum dist cap missions start fuel hz
    (fun m hm => (hex m hm).2)
  have hexAll := optimize_route_allparts ExactAmounts (fun m hm => exact_advance hm)
    dist cap missions start fuel hex
  rw [optimize_route_state_of_success h] at hcore hsum hexAll
  obtain ⟨hpend, hip⟩ := optimize_route_success_empty h
  have hzero : st.current_cargo = 0 := by
    have hs := hsum.1
    unfold CargoSumInv at hs
    rw [hip] at hs
    simp only [List.nil_append] at hs
    rw [hs]
    refine List.sum_eq_zero ?_
    intro x hx
    obtain ⟨m, hm, rfl⟩ := List.mem_map.mp hx
    exact remQ_completed_zero (hcore.completedDone m hm) (hexAll.2.2 m hm)
  rw [← hzero]
  exact hcore.cargoLast

set_option maxRecDepth 2000 in
/-- C3 (witness): the amended conservation applied to the even-split
run. -/
theorem conservation_witness : splitRun.state.cargo_at_steps.getLast? = some 0 := by
  have hz : ∀ m ∈ [splitMission], m.current_dropoff_index = 0 := by
    intro m hm
    rw [List.mem_singleton.mp hm]
    rfl
  have hex : ∀ m ∈ [splitMission], ExactAmounts m := by
    intro m hm
    rw [List.mem_singleton.mp hm]
    constructor
    · with_unfolding_all decide
    · show splitMission.dropoff_cargo_amounts.length = splitMission.dropoffs.length
      with_unfolding_all decide
  have h : optimize_route (fun _ _ => (5:ℚ)) 168 [splitMission] "A" 10 =
      .success splitRun.state := by
    with_unfolding_all rfl
  exact conservation_amended _ 168 [splitMission] "A" 10 _ hz hex h

/-! ### C4 — precedence -/

set_option maxRecDepth 2000 in
/-- C4 (counterexample): the claim "each of a mission's dropoff
locations appears in the returned `route` list strictly after its
pickup location appears" fails: with pickup and dropoff both at the
start location, both actions are local-phase actions and the returned
route is the single-element list `["A"]`, which contains no pair of
positions `i < j` holding the pickup and the dropoff. -/
theorem precedence_counterexample :
    colocRun.isSuccess = true ∧ colocMission.pickup = "A" ∧
      "A" ∈ colocMission.dropoffs ∧
      ¬ (∃ i j : Fin colocRun.state.route.length, (i : ℕ) < (j : ℕ) ∧
          colocRun.state.route.get i = colocMission.pickup ∧
          colocRun.state.route.get j = "A") := by
  refine ⟨?_, ?_, ?_, ?_⟩
  · with_unfolding_all rfl
  · rfl
  · with_unfolding_all decide
  · with_unfolding_all decide

/-- C4 (amended): precedence holds at the level of executed actions:
in a successful computation's action log, every dropoff entry of a
mission occurs at a strictly larger index than some pickup entry of
that mission.  (The route list itself need not witness the order, since
local-phase actions append nothing to it.) -/
theorem precedence_amended (dist : String → String → ℚ) (cap : ℚ)
    (missions : List CargoMission) (start : String) (fuel : ℕ) (st : RouteState)
    (h : optimize_route dist cap missions start fuel = .success st) :
    ∀ (j : ℕ) (i loc ct : String),
      st.mission_order[j]? = some (.dropoff i loc ct) →
      ∃ k, k < j ∧ ∃ ct2, st.mission_order[k]? = some (.pickup i ct2) := by
  have hcore := optimize_route_core dist cap missions start fuel
  rw [optimize_route_state_of_success h] at hcore
  exact hcore.logPrec

set_option maxRecDepth 2000 in
/-- C4 (witness): in the even-split run's log, the dropoff at index 1
is preceded by the pickup of the same mission. -/
theorem precedence_witness :
    ∃ k, k < 1 ∧ ∃ ct2, splitRun.state.mission_order[k]? =
      some (.pickup "M1" ct2) := by
  have h : optimize_route (fun _ _ => (5:ℚ)) 168 [splitMission] "A" 10 =
      .success splitRun.state := by
    with_unfolding_all rfl
  have hj : splitRun.state.mission_order[1]? =
      some (.dropoff "M1" "B" "General") := by
    with_unfolding_all rfl
  exact precedence_amended _ 168 [splitMission] "A" 10 _ h 1 "M1" "B" "General" hj

/-! ### C5 — infeasibility -/

/-- C5: when the travel phase has no feasible candidate (no pending
mission fits in remaining capacity and no in-progress mission exists),
the loop returns the explicit infeasibility value carrying the partial
route, the completed missions and the remaining
(pending + in-progress) missions — no exception is involved, the
result is an ordinary value.  In particular, Scenario B (one 200-SCU
mission against capacity 168) yields the infeasibility result with an
empty completed list and the mission as the sole remaining one. -/
theorem infeasibility_reporting :
    (∀ (dist : String → String → ℚ) (cap : ℚ) (eff : String → ℚ) (st : RouteState),
      st.in_progress_missions = [] → st.pending_missions ≠ [] →
      (∀ m ∈ st.pending_missions, ¬ st.current_cargo + m.cargo_scu ≤ cap) →
      stepRoute dist cap eff st = .infeasible st ∧
        ∀ fuel : ℕ, runRoute dist cap eff (fuel + 1) st = .infeasible st) ∧
    (scenarioBRun = .infeasible (initRouteState "P" [scenarioBMission]) ∧
      scenarioBRun.state.completed_missions = [] ∧
      scenarioBRun.state.remaining_missions = [scenarioBMission] ∧
      scenarioBRun.state.route = ["P"]) := by
  constructor
  · intro dist cap eff st hip hne hnofit
    have hstep := stepRoute_infeasible_of dist cap eff st hip hne hnofit
    refine ⟨hstep, ?_⟩
    intro fuel
    unfold runRoute
    rw [hstep]
  · refine ⟨?_, ?_, ?_, ?_⟩
    · with_unfolding_all rfl
    · with_unfolding_all rfl
    · with_unfolding_all rfl
    · with_unfolding_all rfl

/-- C5 (witness): the general infeasibility step applied to the concrete
Scenario B initial state. -/
theorem infeasibility_reporting_witness :
    stepRoute (fun _ _ => (10:ℚ)) 168 (effFun (fun _ _ => 10) [scenarioBMission])
        (initRouteState "P" [scenarioBMission]) =
      .infeasible (initRouteState "P" [scenarioBMission]) := by
  refine (infeasibility_reporting.1 _ 168 _ _ rfl ?_ ?_).1
  · intro hcon
    cases hcon
  · intro m hm
    rw [List.mem_singleton.mp hm]
    with_unfolding_all decide

/-- C6 (counterexample): the claimed formula (pending-based bonus)
disagrees with the score the code computes.  `c6State` is reached by
one loop step from the initial state; in its travel phase the dropoff
of `c6Carry` at "T" is scored while the pending `c6Heavy` has pickup
"T", so the claim adds a 3000 bonus — but the source scans
`in_progress_missions` (whose only pickup is "S") and adds none. -/
theorem dropoff_score_counterexample :
    stepRoute c6Dist 168 (effFun c6Dist [c6Carry, c6Heavy])
        (initRouteState "S" [c6Carry, c6Heavy]) = .next c6State ∧
      c6Heavy ∈ c6State.pending_missions ∧ c6Heavy.pickup = "T" ∧
      c6Carry.get_next_dropoff = some "T" ∧
      calculate_option_score c6Dist c6State.current_location "T" .dropoff c6Carry
          (effFun c6Dist [c6Carry, c6Heavy] c6Carry.mission_id) c6State.current_cargo
          168 c6State.in_progress_missions ≠
        claimedDropoffScore c6Dist c6State.current_location "T" c6Carry
          (effFun c6Dist [c6Carry, c6Heavy] c6Carry.mission_id) c6State.current_cargo
          168 c6State.pending_missions := by
  refine ⟨?_, ?_, ?_, ?_, ?_⟩
  · with_unfolding_all rfl
  · with_unfolding_all decide
  · rfl
  · with_unfolding_all rfl
  · with_unfolding_all decide

/-- C6 (amended): with a positive capacity, the dropoff score equals
`distance_score + efficiency·10000 + (cargo/capacity)·3000 +
(this_dropoff_quantity/capacity)·4000 + pickup_bonus`, where the
3000-point bonus fires exactly when some IN-PROGRESS mission's pickup
equals the target (the code never consults the pending list here). -/
theorem dropoff_score_formula_amended (dist : String → String → ℚ)
    (current_location target_location : String) (mission : CargoMission)
    (efficiency current_cargo max_cargo : ℚ)
    (in_progress_missions : List CargoMission) (hcap : 0 < max_cargo) :
    calculate_option_score dist current_location target_location .dropoff mission
        efficiency current_cargo max_cargo in_progress_missions =
      (if 0 < dist current_location target_location
        then -(dist current_location target_location) else 0) +
      efficiency * 10000 + (current_cargo / max_cargo) * 3000 +
      (mission.get_current_cargo_amount / max_cargo) * 4000 +
      (if ∃ m ∈ in_progress_missions, m.pickup = target_location
        then 3000 else 0) := by
  simp only [calculate_option_score]
  rw [if_pos hcap, if_pos hcap]
  by_cases hb : ∃ m ∈ in_progress_missions, m.pickup = target_location
  · have hany : (in_progress_missions.any
        (fun m => decide (m.pickup = target_location))) = true := by
      rw [List.any_eq_true]
      obtain ⟨m, hm, hmp⟩ := hb
      exact ⟨m, hm, by simpa using hmp⟩
    rw [if_pos hany, if_pos hb]
  · have hany : ¬ (in_progress_missions.any
        (fun m => decide (m.pickup = target_location))) = true := by
      rw [List.any_eq_true]
      intro ⟨m, hm, hmp⟩
      exact hb ⟨m, hm, by simpa using hmp⟩
    rw [if_neg hany, if_neg hb]

/-- C6 (witness): the amended formula applied at a concrete state. -/
theorem dropoff_score_formula_witness :
    (0:ℚ) < 168 ∧
      calculate_option_score c6Dist "S" "T" .dropoff c6Carry 0 50 168 [c6Carry] =
        (if 0 < c6Dist "S" "T" then -(c6Dist "S" "T") else 0) + 0 * 10000 +
        (50 / 168) * 3000 + (c6Carry.get_current_cargo_amount / 168) * 4000 +
        (if ∃ m ∈ [c6Carry], m.pickup = "T" then 3000 else 0) :=
  ⟨by norm_num,
    dropoff_score_formula_amended c6Dist "S" "T" c6Carry 0 50 168 [c6Carry]
      (by norm_num)⟩

/-- C7 (counterexample): the claimed constant `payout / max(1, Σ)` fails
when the summed pickup-to-dropoff distance lies strictly between 0
and 1: the code only replaces an exactly-zero sum by 1, so with
`Σ = 1/2` and payout 7 it computes `7 / (1/2) = 14`, while the claim's
formula gives `7 / max(1, 1/2) = 7`. -/
theorem mission_efficiency_counterexample :
    missionEfficiency halfDist c7Mission = 14 ∧
      c7Mission.payout /
        max 1 ((c7Mission.dropoffs.map (fun d => halfDist c7Mission.pickup d)).sum) = 7 ∧
      (14:ℚ) ≠ 7 := by
  refine ⟨?_, ?_, by norm_num⟩
  · with_unfolding_all decide
  · rw [← pymax_eq_max]
    with_unfolding_all decide

/-- C7 (amended): the per-mission efficiency constant equals
`payout / max(1, Σ distance(pickup, d))` whenever the summed distance
is 0 or at least 1 (always the case for the source's nonnegative
distance tables at physical scale); in general the code divides by the
raw sum, replacing it by 1 only when it is exactly 0. -/
theorem mission_efficiency_amended (dist : String → String → ℚ) (m : CargoMission)
    (h : (m.dropoffs.map (fun d => dist m.pickup d)).sum = 0 ∨
      1 ≤ (m.dropoffs.map (fun d => dist m.pickup d)).sum) :
    missionEfficiency dist m =
      m.payout / max 1 ((m.dropoffs.map (fun d => dist m.pickup d)).sum) := by
  simp only [missionEfficiency]
  rcases h with h | h
  · rw [h]
    norm_num
  · have hne : (m.dropoffs.map (fun d => dist m.pickup d)).sum ≠ 0 := by linarith
    rw [if_neg hne, if_pos (by linarith : (0:ℚ) <
      (m.dropoffs.map (fun d => dist m.pickup d)).sum)]
    rw [max_eq_right h]

/-- C7 (witness): the amended formula at a concrete distance of 10. -/
theorem mission_efficiency_witness :
    ((c7Mission.dropoffs.map (fun d => tenDist c7Mission.pickup d)).sum = 0 ∨
      1 ≤ (c7Mission.dropoffs.map (fun d => tenDist c7Mission.pickup d)).sum) ∧
    missionEfficiency tenDist c7Mission =
      c7Mission.payout /
        max 1 ((c7Mission.dropoffs.map (fun d => tenDist c7Mission.pickup d)).sum) := by
  have h : (c7Mission.dropoffs.map (fun d => tenDist c7Mission.pickup d)).sum = 0 ∨
      1 ≤ (c7Mission.dropoffs.map (fun d => tenDist c7Mission.pickup d)).sum := by
    right
    with_unfolding_all decide
  exact ⟨h, mission_efficiency_amended tenDist c7Mission h⟩

/-- C8 (counterexample): the lookup never fails.  On an empty index the
call `get_distance "X" "X"` returns the value 0 (the equal-name
shortcut runs before any membership check), not an `UnknownLocation`
failure, so the claim is false. -/
theorem get_distance_counterexample :
    (RouteOptimizer.mk 168 [] []).get_distance "X" "X" = .val 0 ∧
      ¬ distanceLookupClaim := by
  constructor
  · rfl
  · intro h
    have h2 := (h ⟨168, [], []⟩ "X" "X").2 (Or.inl (by simp))
    have h1 := (h ⟨168, [], []⟩ "X" "X").1 rfl
    rw [h1] at h2
    exact DistanceResult.noConfusion h2

/-- C8 (amended): the lookup returns 0 whenever the two names are equal
(even when both are unknown), and when the names differ and either is
absent from the index it returns the float-infinity sentinel — an
ordinary value, not an error; `optimize_route` pre-validates all
locations and reports unknown names itself. -/
theorem get_distance_amended (o : RouteOptimizer) (a b : String) :
    (a = b → o.get_distance a b = .val 0) ∧
    (a ≠ b → (a ∉ o.location_indices ∨ b ∉ o.location_indices) →
      o.get_distance a b = .inf) := by
  constructor
  · intro h
    unfold RouteOptimizer.get_distance
    rw [if_pos h]
  · intro hne habs
    unfold RouteOptimizer.get_distance
    rw [if_neg hne]
    rcases habs with h | h
    · rw [findIdx?_eq_none_of_not_mem _ _ h]
    · rw [findIdx?_eq_none_of_not_mem _ _ h]
      cases o.location_indices.findIdx? (fun y => decide (y = a)) <;> rfl

/-- C8 (witness): the amended contract at a concrete optimizer. -/
theorem get_distance_witness :
    ("A" : String) ≠ "B" ∧ ("B" ∉ (["A"] : List String) ∨ ("A" : String) ∉ ["A"]) ∧
      (RouteOptimizer.mk 168 ["A"] [[0]]).get_distance "A" "B" = .inf ∧
      (RouteOptimizer.mk 168 ["A"] [[0]]).get_distance "A" "A" = .val 0 := by
  have hne : ("A" : String) ≠ "B" := by decide
  have habs : ("B" ∉ (["A"] : List String) ∨ ("A" : String) ∉ ["A"]) := by
    left
    decide
  exact ⟨hne, habs,
    (get_distance_amended ⟨168, ["A"], [[0]]⟩ "A" "B").2 hne
      (by rcases habs with h | h
          · exact Or.inr h
          · exact Or.inl h),
    (get_distance_amended ⟨168, ["A"], [[0]]⟩ "A" "A").1 rfl⟩

/-! ### C9 — dropoff execution -/

/-- C9: executing a dropoff advances the mission's cursor by exactly
one, and the cargo composition entry for the current dropoff's type is
decreased by the current dropoff's quantity with a clamp at 0 — the
entry's value becomes `v - q` when `q < v` and the entry is removed
when the pre-clamp result is ≤ 0; entries never go negative.  The last
conjunct ties this to the loop: the dropoff branch appends exactly
`applyDropoffToTypes` of the latest composition under the mission's
current type and amount, and logs the dropoff; the two conditional
conjuncts show the advanced mission (cursor + 1) is what replaces the
old one in `in_progress_missions`, or is appended to
`completed_missions` when it was the final dropoff. -/
theorem dropoff_execution_spec (comp : List (String × ℚ)) (t : String) (q v : ℚ)
    (hv : lookupQty comp t = some v) :
    (lookupQty (applyDropoffToTypes comp t q) t =
      if q < v then some (v - q) else none) ∧
    ((∀ y ∈ comp, 0 ≤ y.2) → ∀ x ∈ applyDropoffToTypes comp t q, 0 ≤ x.2) ∧
    (∀ m : CargoMission,
      m.advance_dropoff.1.current_dropoff_index = m.current_dropoff_index + 1) ∧
    (∀ (st : RouteState) (m : CargoMission) (loc : String),
      (execDropoffCommon st m loc).cargo_types_at_steps =
        st.cargo_types_at_steps ++ [applyDropoffToTypes st.lastTypes
          m.get_current_cargo_type m.get_current_cargo_amount] ∧
      (execDropoffCommon st m loc).mission_order =
        st.mission_order ++
          [LogEntry.dropoff m.mission_id loc m.get_current_cargo_type]) ∧
    (∀ (st : RouteState) (m : CargoMission) (loc : String),
      m.advance_dropoff.2 = true →
      (execDropoffCommon st m loc).in_progress_missions =
        replaceFirst (fun x => decide (x = m)) m.advance_dropoff.1
          st.in_progress_missions) ∧
    (∀ (st : RouteState) (m : CargoMission) (loc : String),
      m.advance_dropoff.2 = false →
      (execDropoffCommon st m loc).completed_missions =
        st.completed_missions ++ [m.advance_dropoff.1]) := by
  refine ⟨lookup_applyDropoffToTypes hv,
    fun hnn => applyDropoffToTypes_nonneg hnn, fun m => rfl, ?_, ?_, ?_⟩
  · intro st m loc
    unfold execDropoffCommon
    by_cases hadv : m.current_dropoff_index + 1 < m.dropoffs.length
    · rw [if_pos ((advance_dropoff_snd_eq m).mpr hadv)]
      exact ⟨rfl, rfl⟩
    · rw [if_neg (fun hb' => hadv ((advance_dropoff_snd_eq m).mp hb'))]
      exact ⟨rfl, rfl⟩
  · intro st m loc htrue
    unfold execDropoffCommon
    rw [if_pos htrue]
  · intro st m loc hfalse
    unfold execDropoffCommon
    rw [if_neg (fun hb' => by rw [hfalse] at hb'; cases hb')]

/-- C9 (witness): the composition update at a concrete entry:
`("G", 10)` decreased by 4 leaves `("G", 6)`. -/
theorem dropoff_execution_witness :
    lookupQty (applyDropoffToTypes [("G", 10)] "G" 4) "G" =
      if (4:ℚ) < 10 then some ((10:ℚ) - 4) else none :=
  (dropoff_execution_spec [("G", 10)] "G" 4 10 rfl).1

/-! ### C10 — local actions and the route list -/

set_option maxRecDepth 2000 in
/-- C10: local-phase actions (a dropoff or a pickup at the current
location) append an entry to `mission_order`, `cargo_at_each_step` and
`cargo_types_at_steps` but leave `route` and `total_distance`
untouched; when neither local action exists, a continuing step is a
travel action and appends exactly one location to `route`; dispatch of
the found local mission to the corresponding bookkeeping is also
stated.  Consequently the trace lists can be longer than the route and
the two are not index-aligned, as the final conjunct shows on a
successful concrete run (route length 3, trace length 4). -/
theorem local_actions_trace :
    (∀ (st : RouteState) (m : CargoMission),
      (execLocalDropoff st m).route = st.route ∧
      (execLocalDropoff st m).total_distance = st.total_distance ∧
      ∃ e x tl, (execLocalDropoff st m).mission_order = st.mission_order ++ [e] ∧
        (execLocalDropoff st m).cargo_at_steps = st.cargo_at_steps ++ [x] ∧
        (execLocalDropoff st m).cargo_types_at_steps =
          st.cargo_types_at_steps ++ [tl]) ∧
    (∀ (st : RouteState) (m : CargoMission),
      (execLocalPickup st m).route = st.route ∧
      (execLocalPickup st m).total_distance = st.total_distance ∧
      ∃ e x tl, (execLocalPickup st m).mission_order = st.mission_order ++ [e] ∧
        (execLocalPickup st m).cargo_at_steps = st.cargo_at_steps ++ [x] ∧
        (execLocalPickup st m).cargo_types_at_steps =
          st.cargo_types_at_steps ++ [tl]) ∧
    (∀ (dist : String → String → ℚ) (cap : ℚ) (eff : String → ℚ)
        (st : RouteState) (m : CargoMission),
      st.in_progress_missions.find?
          (fun m => decide (m.get_next_dropoff = some st.current_location)) = some m →
      stepRoute dist cap eff st = .next (execLocalDropoff st m)) ∧
    (∀ (dist : String → String → ℚ) (cap : ℚ) (eff : String → ℚ)
        (st st' : RouteState),
      st.in_progress_missions.find?
        (fun m => decide (m.get_next_dropoff = some st.current_location)) = none →
      st.pending_missions.find?
        (fun m => decide (m.pickup = st.current_location ∧
          st.current_cargo + m.cargo_scu ≤ cap)) = none →
      stepRoute dist cap eff st = .next st' →
      ∃ loc, st'.route = st.route ++ [loc]) ∧
    (splitRun.isSuccess = true ∧
      splitRun.state.route.length < splitRun.state.cargo_at_steps.length) := by
  refine ⟨?_, ?_, ?_, ?_, ?_, ?_⟩
  · intro st m
    unfold execLocalDropoff execDropoffCommon
    by_cases hadv : m.current_dropoff_index + 1 < m.dropoffs.length
    · rw [if_pos ((advance_dropoff_snd_eq m).mpr hadv)]
      exact ⟨rfl, rfl, _, _, _, rfl, rfl, rfl⟩
    · rw [if_neg (fun hb' => hadv ((advance_dropoff_snd_eq m).mp hb'))]
      exact ⟨rfl, rfl, _, _, _, rfl, rfl, rfl⟩
  · intro st m
    exact ⟨rfl, rfl, _, _, _, rfl, rfl, rfl⟩
  · intro dist cap eff st m hfind
    have hne : ¬ (st.pending_missions = [] ∧ st.in_progress_missions = []) := by
      intro hc
      rw [hc.2] at hfind
      cases hfind
    unfold stepRoute
    rw [if_neg hne, hfind]
  · intro dist cap eff st st' hd hp hstep
    unfold stepRoute at hstep
    split at hstep
    · cases hstep
    · rw [hd] at *
      split at hstep
      · next m hm => rw [hd] at hm; cases hm
      · split at hstep
        · next m hm => rw [hp] at hm; cases hm
        · have hroute : ∀ (st2 : RouteState) (m2 : CargoMission) (loc2 : String),
              (execDropoffCommon st2 m2 loc2).route = st2.route := by
            intro st2 m2 loc2
            unfold execDropoffCommon
            by_cases hadv : m2.current_dropoff_index + 1 < m2.dropoffs.length
            · rw [if_pos ((advance_dropoff_snd_eq m2).mpr hadv)]
            · rw [if_neg (fun hb' => hadv ((advance_dropoff_snd_eq m2).mp hb'))]
          split at hstep
          · cases hstep
          · next s m hb =>
              cases hstep
              exact ⟨m.pickup, rfl⟩
          · next s m loc hb =>
              cases hstep
              exact ⟨loc, hroute _ _ _⟩
  · with_unfolding_all rfl
  · with_unfolding_all decide

set_option maxRecDepth 2000 in
/-- C10 (witness): the dispatch conjunct applied concretely — in the
state reached after the local pickup of `colocMission`, the local
dropoff at the current location is found and executed without touching
the route. -/
theorem local_actions_trace_witness :
    stepRoute (fun _ _ => (7:ℚ)) 168 (effFun (fun _ _ => 7) [colocMission])
        (execLocalPickup (initRouteState "A" [colocMission]) colocMission) =
      .next (execLocalDropoff
        (execLocalPickup (initRouteState "A" [colocMission]) colocMission)
        colocMission) := by
  refine local_actions_trace.2.2.1 _ _ _ _ colocMission ?_
  with_unfolding_all rfl
